import Mathlib

set_option maxRecDepth 16384

/-!
Verification development for the multi-agent task orchestration engine
(`backend/multi_agent.py` of the `local-personal-agent` repository).

The Python source is shallowly embedded: pure fragments become Lean
functions, the stateful scheduler loop becomes explicit state passing with
a fuel bound (the source's `while` loop has no fuel; a fuel-sufficiency
lemma discharges the difference), and the external effects (the Ollama
text-completion backend, in-process tool execution, the HTTP tool
endpoints) become oracle function parameters.  Raised Python exceptions
become `Except` errors carrying the exception's structured content.
-/

/-! ## JSON values and a model of `json.loads`

Python's `json` module is a collaborator of the orchestrator
(`_extract_json` and `_execute_tool_calls` both call `json.loads`).
Numbers are modelled as integers: every JSON payload exchanged by the
orchestrator's protocols in this development is integer-valued, and no
claim concerns floating-point literals.  Object fields are kept as an
insertion-ordered association list, matching `dict` iteration order.
-/

inductive Json where
  | null : Json
  | jbool (b : Bool) : Json
  | jnum (n : Int) : Json
  | jstr (s : String) : Json
  | jarr (elems : List Json) : Json
  | jobj (fields : List (String × Json)) : Json

/-- Look a key up in a JSON object's field list (first occurrence wins,
as in a Python `dict` built without duplicate keys). -/
def jsonLookup (fields : List (String × Json)) (key : String) : Option Json :=
  match fields with
  | [] => none
  | (k, v) :: rest => if k = key then some v else jsonLookup rest key

/-- Model of Python `d.get(key, default)` on a decoded JSON object;
on a non-object value the lookup yields the default (the orchestrator
only applies `.get` to decoded objects). -/
def jsonGetD (j : Json) (key : String) (dflt : Json) : Json :=
  match j with
  | .jobj fields => (jsonLookup fields key).getD dflt
  | _ => dflt

/-- The characters Python's `str.strip()` and the regex class `\s` treat
as whitespace (ASCII subset; all texts in this development are ASCII). -/
def pyIsSpace (c : Char) : Bool :=
  c = ' ' || c = '\t' || c = '\n' || c = '\r' || c = '\x0b' || c = '\x0c'

/-- Drop leading Python whitespace. -/
def skipWs : List Char → List Char
  | [] => []
  | c :: rest => if pyIsSpace c then skipWs rest else c :: rest

/-- The opening brace character (x7b). -/
def lbraceC : Char := Char.ofNat 123

/-- The closing brace character (x7d). -/
def rbraceC : Char := Char.ofNat 125

/-- The double-quote character. -/
def dquoteC : Char := Char.ofNat 34

/-- The single-quote character. -/
def squoteC : Char := Char.ofNat 39

/-- The backtick character that fences a code block. -/
def btickC : Char := Char.ofNat 96

/-- Decimal digits of a JSON integer literal, folded to a natural. -/
def digitsToNat (acc : Nat) : List Char → Nat
  | [] => acc
  | c :: rest => digitsToNat (acc * 10 + (c.toNat - '0'.toNat)) rest

/-- Parse the body of a JSON string after the opening quote, handling the
single-character escapes; `\uXXXX` escapes are outside this model (no
orchestrator payload in this development contains one). Returns the
decoded characters and the remaining input. -/
def parseStringBody (fuel : Nat) (l : List Char) : Option (List Char × List Char) :=
  match fuel with
  | 0 => none
  | fuel + 1 =>
    match l with
    | [] => none
    | c :: rest =>
      if c = dquoteC then some ([], rest)
      else if c = '\\' then
        match rest with
        | [] => none
        | e :: rest2 =>
          let dec : Option Char :=
            if e = dquoteC then some dquoteC
            else if e = '\\' then some '\\'
            else if e = '/' then some '/'
            else if e = 'n' then some '\n'
            else if e = 't' then some '\t'
            else if e = 'r' then some '\r'
            else if e = 'b' then some '\x08'
            else if e = 'f' then some '\x0c'
            else none
          match dec with
          | none => none
          | some d =>
            match parseStringBody fuel rest2 with
            | none => none
            | some (s, rem) => some (d :: s, rem)
      else
        match parseStringBody fuel rest with
        | none => none
        | some (s, rem) => some (c :: s, rem)

mutual

/-- Recursive-descent JSON value parser (model of the grammar accepted by
`json.loads`, restricted to integer numerals). Consumes leading
whitespace; returns the value and the unconsumed remainder. -/
def parseValue (fuel : Nat) (l : List Char) : Option (Json × List Char) :=
  match fuel with
  | 0 => none
  | fuel + 1 =>
    match skipWs l with
    | [] => none
    | c :: rest =>
      if c = dquoteC then
        match parseStringBody (fuel + 1) rest with
        | none => none
        | some (s, rem) => some (.jstr ⟨s⟩, rem)
      else if c = 'n' then
        match rest with
        | 'u' :: 'l' :: 'l' :: rem => some (.null, rem)
        | _ => none
      else if c = 't' then
        match rest with
        | 'r' :: 'u' :: 'e' :: rem => some (.jbool true, rem)
        | _ => none
      else if c = 'f' then
        match rest with
        | 'a' :: 'l' :: 's' :: 'e' :: rem => some (.jbool false, rem)
        | _ => none
      else if c = '-' then
        let digits := rest.takeWhile Char.isDigit
        if digits.isEmpty then none
        else some (.jnum (-(digitsToNat 0 digits : Int)), rest.dropWhile Char.isDigit)
      else if c.isDigit then
        let digits := (c :: rest).takeWhile Char.isDigit
        some (.jnum (digitsToNat 0 digits : Int), (c :: rest).dropWhile Char.isDigit)
      else if c = '[' then
        match skipWs rest with
        | ']' :: rem => some (.jarr [], rem)
        | _ =>
          match parseElems fuel rest with
          | none => none
          | some (elems, rem) => some (.jarr elems, rem)
      else if c = lbraceC then
        match skipWs rest with
        | d :: rem =>
          if d = rbraceC then some (.jobj [], rem)
          else
            match parseFields fuel rest with
            | none => none
            | some (fields, rem2) => some (.jobj fields, rem2)
        | [] => none
      else none

/-- Comma-separated JSON array elements up to the closing bracket. -/
def parseElems (fuel : Nat) (l : List Char) : Option (List Json × List Char) :=
  match fuel with
  | 0 => none
  | fuel + 1 =>
    match parseValue fuel l with
    | none => none
    | some (v, rem) =>
      match skipWs rem with
      | ',' :: rem2 =>
        match parseElems fuel rem2 with
        | none => none
        | some (vs, rem3) => some (v :: vs, rem3)
      | ']' :: rem2 => some ([v], rem2)
      | _ => none

/-- Comma-separated `"key": value` JSON object members up to the closing
brace. -/
def parseFields (fuel : Nat) (l : List Char) : Option (List (String × Json) × List Char) :=
  match fuel with
  | 0 => none
  | fuel + 1 =>
    match skipWs l with
    | c :: rest =>
      if c = dquoteC then
        match parseStringBody (fuel + 1) rest with
        | none => none
        | some (k, rem) =>
          match skipWs rem with
          | ':' :: rem2 =>
            match parseValue fuel rem2 with
            | none => none
            | some (v, rem3) =>
              match skipWs rem3 with
              | ',' :: rem4 =>
                match parseFields fuel rem4 with
                | none => none
                | some (fs, rem5) => some ((⟨k⟩, v) :: fs, rem5)
              | d :: rem4 =>
                if d = rbraceC then some ([(⟨k⟩, v)], rem4) else none
              | [] => none
          | _ => none
      else none
    | [] => none

end

/-- Model of `json.loads`: parse one JSON value and require that only
whitespace remains (Python raises `JSONDecodeError` on trailing data,
modelled as `none`). -/
def json_loads (l : List Char) : Option Json :=
  match parseValue (l.length + 1) l with
  | none => none
  | some (v, rem) => if (skipWs rem).isEmpty then some v else none

/-! ## Plan extraction (`_extract_json`)

The source looks for the Python regex
`` ```(?:json)?\s*(\{.*?\})\s*``` `` (DOTALL) and, if the first match's
capture fails `json.loads`, falls back to the substring from the first
opening brace to the last closing brace; if that too is absent or
unparseable it raises `No valid JSON found in response: <text[:200]>...`.
Every quantifier in the pattern resolves deterministically (`\s*` is
always followed by a literal that is not whitespace, `(?:json)?` by a
brace test, and `.*?` expands minimally), so the scanner below computes
exactly the regex's first match.
-/

/-- Consume an exact literal, returning the remainder. -/
def dropLit : List Char → List Char → Option (List Char)
  | [], l => some l
  | _ :: _, [] => none
  | c :: cs, d :: ds => if c = d then dropLit cs ds else none

/-- First index at which `p` holds (model of `str.find`). -/
def firstIdxOf (p : Char → Bool) : List Char → Option Nat
  | [] => none
  | c :: rest => if p c then some 0 else (firstIdxOf p rest).map (· + 1)

/-- Does `\s*`` ``` `` match here (skip whitespace, then three backticks)? -/
def closingFenceAhead (l : List Char) : Bool :=
  match skipWs l with
  | b1 :: b2 :: b3 :: _ => b1 = btickC && b2 = btickC && b3 = btickC
  | _ => false

/-- Minimal expansion of `.*?\}` before a closing fence: consume
characters until a closing brace immediately followed by `\s*`` ``` ``;
the returned list includes that closing brace. -/
def fencedBody : List Char → Option (List Char)
  | [] => none
  | c :: rest =>
    if c = rbraceC && closingFenceAhead rest then some [c]
    else (fencedBody rest).map (c :: ·)

/-- After the opening fence (and optional `json` tag): `\s*` then the
captured `\{.*?\}`. -/
def fencedOpen (l : List Char) : Option (List Char) :=
  match skipWs l with
  | c :: rest => if c = lbraceC then (fencedBody rest).map (lbraceC :: ·) else none
  | [] => none

/-- Match the full fenced pattern at this exact position, returning the
capture group. -/
def tryFencedAt (l : List Char) : Option (List Char) :=
  match l with
  | b1 :: b2 :: b3 :: rest =>
    if b1 = btickC && b2 = btickC && b3 = btickC then
      match dropLit ['j', 's', 'o', 'n'] rest with
      | some rest2 =>
        match fencedOpen rest2 with
        | some cap => some cap
        | none => fencedOpen rest
      | none => fencedOpen rest
    else none
  | _ => none

/-- Capture of the regex's first (leftmost) match over the whole text. -/
def findFencedObject : List Char → Option (List Char)
  | [] => none
  | c :: rest =>
    match tryFencedAt (c :: rest) with
    | some cap => some cap
    | none => findFencedObject rest

/-- Index of the last element satisfying `p` (model of `str.rfind`). -/
def lastIdxOf (p : Char → Bool) (l : List Char) : Option Nat :=
  (firstIdxOf p l.reverse).map (fun i => l.length - 1 - i)

/-- The message of the exception `_extract_json` raises when both
strategies fail: a bounded 200-character excerpt of the offending text. -/
def extractFailMsg (text : String) : String :=
  "No valid JSON found in response: " ++ (⟨text.toList.take 200⟩ : String) ++ "..."

/-- The brace-substring fallback of `_extract_json`: `text.find('{')`,
`text.rfind('}') + 1`, parse the slice if the bounds are sane; any
failure falls through to the final raise. -/
def extractFallback (text : String) : Except String Json :=
  let l := text.toList
  match firstIdxOf (· = lbraceC) l with
  | none => .error (extractFailMsg text)
  | some s =>
    match lastIdxOf (· = rbraceC) l with
    | none => .error (extractFailMsg text)
    | some e =>
      if s < e + 1 then
        match json_loads ((l.take (e + 1)).drop s) with
        | some j => .ok j
        | none => .error (extractFailMsg text)
      else .error (extractFailMsg text)

/-- Model of `MultiAgentOrchestrator._extract_json`. -/
def extract_json (text : String) : Except String Json :=
  match findFencedObject text.toList with
  | some cap =>
    match json_loads cap with
    | some j => .ok j
    | none => extractFallback text
  | none => extractFallback text

/-! ## Tool-call protocol parsing and dispatch (`_execute_tool_calls`,
`_parse_tool_params`, `_call_tool_endpoint`)

Two dialects are scanned over the agent's free-text output:
the legacy Python regex `TOOL_CALL:(\w+)\((.*?)\)` and the structured
regex `\{"tool":\s*"([^"]+)",\s*"args":\s*(\{[^}]*\})\}`.  As with the
fenced pattern, every quantifier resolves deterministically (each
maximal/minimal run is delimited by a literal the run cannot contain),
so the scanners below compute exactly `re.findall`'s match list.
Scanning carries fuel (one unit per examined character) because matches
resume after the previous match's end; the top-level entry points pass
the text's length, which is always sufficient.
-/

/-- The regex class `\w` (ASCII). -/
def isWordChar (c : Char) : Bool := c.isAlpha || c.isDigit || c = '_'

/-- `(.*?)\)` with `.` excluding newline: the characters up to the first
closing parenthesis, failing if a newline intervenes or no closing
parenthesis exists. Returns (captured, remainder after the parenthesis). -/
def scanParamsRun : List Char → Option (List Char × List Char)
  | [] => none
  | c :: rest =>
    if c = ')' then some ([], rest)
    else if c = '\n' then none
    else (scanParamsRun rest).map (fun pr => (c :: pr.1, pr.2))

/-- Match the legacy pattern at this exact position: literal
`TOOL_CALL:`, a nonempty `\w+` run, `(`, the parameter run, `)`.
Returns ((name, params), remainder after the match). -/
def tryLegacyAt (l : List Char) : Option ((List Char × List Char) × List Char) :=
  match dropLit "TOOL_CALL:".toList l with
  | none => none
  | some rest =>
    let nm := rest.takeWhile isWordChar
    if nm.isEmpty then none
    else
      match rest.dropWhile isWordChar with
      | '(' :: rest2 =>
        match scanParamsRun rest2 with
        | some (ps, rem) => some ((nm, ps), rem)
        | none => none
      | _ => none

/-- `re.findall` for the legacy pattern: leftmost, non-overlapping. -/
def findLegacyCalls (fuel : Nat) (l : List Char) : List (List Char × List Char) :=
  match fuel with
  | 0 => []
  | fuel + 1 =>
    match l with
    | [] => []
    | c :: rest =>
      match tryLegacyAt (c :: rest) with
      | some (nmps, rem) => nmps :: findLegacyCalls fuel rem
      | none => findLegacyCalls fuel rest

/-- Stage `\s*"([^"]+)",` of the structured pattern: skip whitespace,
require a quote, capture the maximal nonempty quote-free run, require
the closing quote followed by a comma. -/
def jtName (l : List Char) : Option (List Char × List Char) :=
  match skipWs l with
  | c :: r2 =>
    if c = dquoteC then
      let nm := r2.takeWhile (fun d => !(d = dquoteC))
      if nm.isEmpty then none
      else
        match r2.dropWhile (fun d => !(d = dquoteC)) with
        | _ :: ',' :: r3 => some (nm, r3)
        | _ => none
    else none
  | [] => none

/-- Stage `\s*"args":\s*(\{[^}]*\})\}` of the structured pattern: the
capture is an opening brace, the maximal run free of closing braces, and
the first closing brace; one more closing brace ends the match. -/
def jtArgs (l : List Char) : Option (List Char × List Char) :=
  match dropLit [dquoteC, 'a', 'r', 'g', 's', dquoteC, ':'] (skipWs l) with
  | none => none
  | some r4 =>
    match skipWs r4 with
    | d :: r5 =>
      if d = lbraceC then
        let inner := r5.takeWhile (fun e => !(e = rbraceC))
        match r5.dropWhile (fun e => !(e = rbraceC)) with
        | cb :: cb2 :: r7 =>
          if cb = rbraceC && cb2 = rbraceC then
            some (lbraceC :: inner ++ [rbraceC], r7)
          else none
        | _ => none
      else none
    | [] => none

/-- Match the structured pattern at this exact position: the literal
`{"tool":`, then the name stage, then the args stage (whose capture cuts
a nested object at its first closing brace).
Returns ((name, args capture), remainder). -/
def tryJsonToolAt (l : List Char) : Option ((List Char × List Char) × List Char) :=
  match dropLit [lbraceC, dquoteC, 't', 'o', 'o', 'l', dquoteC, ':'] l with
  | none => none
  | some r1 =>
    match jtName r1 with
    | none => none
    | some (nm, r3) =>
      match jtArgs r3 with
      | none => none
      | some (argsCap, r7) => some ((nm, argsCap), r7)

/-- `re.findall` for the structured pattern: leftmost, non-overlapping. -/
def findJsonToolCalls (fuel : Nat) (l : List Char) : List (List Char × List Char) :=
  match fuel with
  | 0 => []
  | fuel + 1 =>
    match l with
    | [] => []
    | c :: rest =>
      match tryJsonToolAt (c :: rest) with
      | some (nmargs, rem) => nmargs :: findJsonToolCalls fuel rem
      | none => findJsonToolCalls fuel rest

/-- Python `str.strip()` (no argument): drop whitespace at both ends. -/
def pyStrip (l : List Char) : List Char :=
  ((l.dropWhile pyIsSpace).reverse.dropWhile pyIsSpace).reverse

/-- Python `str.strip('"\x27')`: drop single and double quotes at both
ends. -/
def stripQuotes (l : List Char) : List Char :=
  let q : Char → Bool := fun c => c = dquoteC || c = squoteC
  ((l.dropWhile q).reverse.dropWhile q).reverse

/-- Python `str.split(sep)` for a one-character separator (keeps empty
parts). -/
def splitChar (sep : Char) : List Char → List (List Char)
  | [] => [[]]
  | c :: rest =>
    let r := splitChar sep rest
    if c = sep then [] :: r
    else
      match r with
      | h :: t => (c :: h) :: t
      | [] => [[c]]

/-- Python `part.split('=', 1)` when `'=' in part`: the text before the
first `=` and everything after it. -/
def splitOnceEq : List Char → Option (List Char × List Char)
  | [] => none
  | c :: rest =>
    if c = '=' then some ([], rest)
    else (splitOnceEq rest).map (fun kv => (c :: kv.1, kv.2))

/-- `dict` assignment `params[key] = value`: overwrite in place, else
append. -/
def dictInsert (acc : List (String × String)) (k v : String) : List (String × String) :=
  if acc.any (fun p => p.1 = k) then
    acc.map (fun p => if p.1 = k then (k, v) else p)
  else acc ++ [(k, v)]

/-- Model of `MultiAgentOrchestrator._parse_tool_params`: split on commas,
keep the parts containing `=`, split each once on `=`, strip whitespace
then quotes from both key and value.  (The source's `try/except` around
this block is unreachable: every operation inside it is total.) -/
def parse_tool_params (params_str : List Char) : List (String × String) :=
  if (pyStrip params_str).isEmpty then []
  else
    (splitChar ',' params_str).foldl
      (fun acc part =>
        match splitOnceEq part with
        | some (k, v) =>
          dictInsert acc ⟨stripQuotes (pyStrip k)⟩ ⟨stripQuotes (pyStrip v)⟩
        | none => acc)
      []

/-! ## Tool dispatch -/

/-- The names `hasattr(enterprise_tools, ·)` reports on an
`EnterpriseTools` instance: the `__init__`-assigned attributes and the
class's methods (`enterprise_tools.py`).  Attributes inherited from
`object` (dunder names) are omitted: no orchestrator tool call in this
development names one. -/
def enterpriseToolAttrs : List String :=
  ["workspace_dir", "current_project_path", "docker_client",
   "write_file", "read_file", "run_shell", "create_project",
   "_create_fullstack_structure", "_create_python_structure",
   "_create_react_structure", "_create_trading_structure",
   "install_dependencies", "git_init", "git_commit", "git_push",
   "docker_build", "docker_run", "open_vscode", "deploy_local",
   "list_files", "get_project_status"]

/-- The static endpoint table of `_call_tool_endpoint`. -/
def tool_endpoints : List (String × (String × String)) :=
  [("write_file", ("POST", "/v1/tools/write-file")),
   ("make_dir", ("POST", "/v1/tools/make-dir")),
   ("run_shell", ("POST", "/v1/tools/run-shell")),
   ("open_app", ("POST", "/v1/tools/open-app")),
   ("list_dir", ("GET", "/v1/tools/list-dir"))]

/-- First-match lookup in a string-keyed association list. -/
def lookupStr {α : Type} (l : List (String × α)) (k : String) : Option α :=
  match l with
  | [] => none
  | (k2, v) :: rest => if k2 = k then some v else lookupStr rest k

/-- Outcome of one HTTP request, as seen by `_call_tool_endpoint`:
either a raised transport exception (message), or a status code, a body
text, and the body's JSON decoding when `response.json()` succeeds.
The request itself is an external effect, supplied as an oracle. -/
def HttpOracle : Type := String → String → Json → Except String (Nat × String × Option Json)

/-- A `{success: false, error: msg}` result object. -/
def errResult (msg : String) : Json :=
  .jobj [("success", .jbool false), ("error", .jstr msg)]

/-- Model of `MultiAgentOrchestrator._call_tool_endpoint`: unknown names
short-circuit to `Unknown tool: <name>` before any request; otherwise
the request is issued (method and path from the static table; the
`list_dir` GET passes `args["path"]` as a query parameter, the rest POST
`args` as the body — both are folded into the oracle's `args`), a 200
response's decoded body is returned unchanged, a non-200 response maps
to `HTTP <status>: <body>`, and a raised exception maps to its message.
A 200 body that fails to decode raises inside the `try`, so it surfaces
through the same `except` as a transport error. -/
def call_tool_endpoint (http : HttpOracle) (tool_name : String) (args : Json) : Json :=
  match lookupStr tool_endpoints tool_name with
  | none => errResult ("Unknown tool: " ++ tool_name)
  | some (method, endpoint) =>
    match http method endpoint args with
    | .error e => errResult e
    | .ok (status, bodyText, bodyJson) =>
      if status = 200 then
        match bodyJson with
        | some j => j
        | none => errResult "response body is not valid JSON"
      else errResult ("HTTP " ++ toString status ++ ": " ++ bodyText)

/-- One entry of the `tool_results` list built by `_execute_tool_calls`.
The four constructors are the four `append` sites in the source; each
carries that site's dict fields. The recorded `success` value of the two
`Ok` forms is `result.get('success', False)`, kept as a JSON value. -/
inductive ToolEntry where
  | legacyOk (function : String) (params : List (String × String))
      (result : Json) (success : Json) : ToolEntry
  | legacyFail (function : String) (paramsStr : String) (error : String) : ToolEntry
  | structOk (tool : String) (args : Json) (result : Json) (success : Json) : ToolEntry
  | structFail (tool : String) (argsStr : String) (error : String) : ToolEntry

/-- The `success` field recorded in the entry's dict. -/
def ToolEntry.successField : ToolEntry → Json
  | .legacyOk _ _ _ s => s
  | .legacyFail _ _ _ => .jbool false
  | .structOk _ _ _ s => s
  | .structFail _ _ _ => .jbool false

/-- Oracle for the in-process branch of the legacy loop: calling the
`EnterpriseTools` method plus the follow-up
`context_agent.record_command_execution` logging call, both inside the
same `try`; `.error` is the message of whatever either raised. -/
def RunToolOracle : Type := String → List (String × String) → Except String Json

/-- Model of `MultiAgentOrchestrator._execute_tool_calls`: scan the
response for legacy calls, then for structured calls; the resulting
entries are appended in that order.  A legacy name that is not an
attribute of the tools object is silently skipped (the `hasattr` guard
has no `else`); a structured `args` capture that `json.loads` rejects
becomes a `structFail` entry (the exact CPython `JSONDecodeError` text
is not modelled). -/
def execute_tool_calls (runTool : RunToolOracle) (http : HttpOracle)
    (response : String) : List ToolEntry :=
  let l := response.toList
  let legacyEntries : List ToolEntry :=
    (findLegacyCalls l.length l).foldr
      (fun nmps acc =>
        let fname : String := ⟨nmps.1⟩
        let params := parse_tool_params nmps.2
        if enterpriseToolAttrs.contains fname then
          match runTool fname params with
          | .ok result =>
            .legacyOk fname params result (jsonGetD result "success" (.jbool false)) :: acc
          | .error e => .legacyFail fname ⟨nmps.2⟩ e :: acc
        else acc)
      []
  let structEntries : List ToolEntry :=
    (findJsonToolCalls l.length l).map
      (fun nmargs =>
        let tname : String := ⟨nmargs.1⟩
        match json_loads nmargs.2 with
        | some args =>
          let result := call_tool_endpoint http tname args
          .structOk tname args result (jsonGetD result "success" (.jbool false))
        | none => .structFail tname ⟨nmargs.2⟩ "args are not valid JSON")
  legacyEntries ++ structEntries

/-- The parsing stage of the legacy loop: each regex match's name
together with its parsed parameter dict (the normalized ToolCall of the
legacy dialect). -/
def parseLegacyCalls (response : String) : List (String × List (String × String)) :=
  (findLegacyCalls response.toList.length response.toList).map
    (fun nmps => (⟨nmps.1⟩, parse_tool_params nmps.2))

/-- A placeholder in-process oracle for closed evaluations. -/
def dummyRun : RunToolOracle := fun _ _ => .ok (.jobj [("success", .jbool true)])

/-- A placeholder HTTP oracle for closed evaluations. -/
def dummyHttp : HttpOracle := fun _ _ _ => .error "connection refused"

/-! ## Task graph and scheduler loop (`Task`, `_call_planner`,
`_execute_plan`, `_attempt_recovery`, `_finalize_execution`,
`process_goal`)

`datetime.now()` is modelled as a monotone tick counter carried in the
scheduler state (one tick per call; the absolute values are
irrelevant to every claim).  The two agent invocations
`_call_designer` / `_call_coder` are Ollama-backed effect functions
whose returned result dict no claim inspects; they appear as a single
execution oracle applied to the task.  A raised exception is an
`Except.error` carrying the exception's structured content.
-/

inductive AgentRole where
  | planner : AgentRole
  | designer : AgentRole
  | coder : AgentRole
  | context : AgentRole
deriving DecidableEq

/-- The enum's `.value`. -/
def AgentRole.value : AgentRole → String
  | .planner => "planner"
  | .designer => "designer"
  | .coder => "coder"
  | .context => "context"

/-- Model of the `AgentRole(...)` enum constructor: `ValueError` on any
other string. -/
def AgentRole.ofString (s : String) : Except String AgentRole :=
  if s = "planner" then .ok .planner
  else if s = "designer" then .ok .designer
  else if s = "coder" then .ok .coder
  else if s = "context" then .ok .context
  else .error (⟨[squoteC]⟩ ++ s ++ ⟨[squoteC]⟩ ++ " is not a valid AgentRole")

inductive TaskStatus where
  | pending : TaskStatus
  | in_progress : TaskStatus
  | completed : TaskStatus
  | failed : TaskStatus
  | needs_revision : TaskStatus
deriving DecidableEq

/-- The enum's `.value`. -/
def TaskStatus.value : TaskStatus → String
  | .pending => "pending"
  | .in_progress => "in_progress"
  | .completed => "completed"
  | .failed => "failed"
  | .needs_revision => "needs_revision"

/-- The `Task` dataclass. -/
structure PTask where
  id : String
  type : String
  description : String
  agent : AgentRole
  status : TaskStatus
  input_data : Json
  output_data : Json
  dependencies : List String
  created_at : Nat
  updated_at : Nat
  error_message : Option String := none

/-- `self.tasks[task.id] = task`: `dict` assignment keeps the original
insertion position on overwrite. -/
def taskDictInsert (ts : List PTask) (t : PTask) : List PTask :=
  if ts.any (fun u => u.id = t.id) then
    ts.map (fun u => if u.id = t.id then t else u)
  else ts ++ [t]

/-- `results[task.id] = result` for the plain results `dict`. -/
def resultsInsert (rs : List (String × Json)) (k : String) (v : Json) :
    List (String × Json) :=
  if rs.any (fun p => p.1 = k) then
    rs.map (fun p => if p.1 = k then (k, v) else p)
  else rs ++ [(k, v)]

/-- `executed_tasks.add(id)` on the Python `set` (membership and size
are all the loop uses, so an insertion-ordered duplicate-free list is a
faithful carrier). -/
def setAdd (s : List String) (id : String) : List String :=
  if s.contains id then s else s ++ [id]

/-- `dependencies` entries of a subtask, `subtask.get("dependencies", [])`.
The planner schema types them as id strings; a non-string entry (which
Python would carry along unchecked) is outside this model. -/
def depsAsStrings : Json → Option (List String)
  | .jarr elems =>
    elems.mapM (fun e => match e with | .jstr s => some s | _ => none)
  | _ => none

/-- Build one `Task` from a subtask object, as the loop body of
`_call_planner` does.  The required fields `id`, `type`, `description`,
`agent` are typed as strings by the planner schema; a missing key is the
`KeyError` the source's `except` turns into a plan failure. -/
def taskOfSubtask (clock : Nat) (sub : Json) : Except String PTask :=
  match sub with
  | .jobj fields =>
    match jsonLookup fields "id", jsonLookup fields "type",
          jsonLookup fields "description", jsonLookup fields "agent" with
    | some (.jstr tid), some (.jstr tty), some (.jstr tdesc), some (.jstr tag) =>
      match AgentRole.ofString tag with
      | .error e => .error e
      | .ok role =>
        match depsAsStrings ((jsonLookup fields "dependencies").getD (.jarr [])) with
        | some deps =>
          .ok { id := tid, type := tty, description := tdesc, agent := role,
                status := .pending, input_data := sub, output_data := .jobj [],
                dependencies := deps, created_at := clock, updated_at := clock }
        | none => .error "dependencies is not a list of id strings"
    | _, _, _, _ => .error "KeyError on a required subtask field"
  | _ => .error "subtask is not an object"

/-- The task-creation loop of `_call_planner`: each built task is
inserted into `self.tasks` before the next subtask is examined, so the
tasks built before a failing subtask remain in the graph. -/
def buildTasks (subs : List Json) (ts : List PTask) (clock : Nat) :
    Except String Unit × List PTask × Nat :=
  match subs with
  | [] => (.ok (), ts, clock)
  | sub :: rest =>
    match taskOfSubtask clock sub with
    | .error e => (.error e, ts, clock)
    | .ok t => buildTasks rest (taskDictInsert ts t) (clock + 1)

/-- `plan["session_id"] = session_id` (the extracted plan is always an
object: both extraction strategies only ever parse a `{...}` slice). -/
def setJsonField (j : Json) (k : String) (v : Json) : Json :=
  match j with
  | .jobj fields =>
    if fields.any (fun p => p.1 = k) then
      .jobj (fields.map (fun p => if p.1 = k then (k, v) else p))
    else .jobj (fields ++ [(k, v)])
  | other => other

/-- Model of `MultiAgentOrchestrator._call_planner`.  The Ollama call
sits outside the `try`, so its failure propagates unchanged; extraction
or task-construction failures are wrapped as
`Planner failed to create valid plan: <e>`.  Returns the plan (or the
raised error), `self.tasks`, and the clock. -/
def call_planner (ollama : Except String String) (session_id : String)
    (clock : Nat) : Except String Json × List PTask × Nat :=
  match ollama with
  | .error e => (.error e, [], clock)
  | .ok response =>
    match extract_json response with
    | .error e => (.error ("Planner failed to create valid plan: " ++ e), [], clock)
    | .ok plan0 =>
      let plan := setJsonField plan0 "session_id" (.jstr session_id)
      match jsonGetD plan "subtasks" (.jarr []) with
      | .jarr subs =>
        match buildTasks subs [] clock with
        | (.ok (), ts, ck) => (.ok plan, ts, ck)
        | (.error e, ts, ck) =>
          (.error ("Planner failed to create valid plan: " ++ e), ts, ck)
      | _ => (.error "Planner failed to create valid plan: subtasks is not a list", [], clock)

/-- Model of `MultiAgentOrchestrator._attempt_recovery`: the baseline
policy returns `None` for every task and every error. -/
def attempt_recovery (_task : PTask) (_error : String) : Option Json := none

/-- Oracle for one agent invocation (`_call_designer` / `_call_coder`):
the Ollama round-trip plus, for the coder, the tool-call execution; its
value is the task's result dict, its `.error` the raised exception. -/
def ExecOracle : Type := PTask → Except String Json

/-- The role dispatch of the loop body: designer and coder reach their
agent call, anything else raises `Unknown agent type` (inside the same
`try`, so it flows into the task-failure path). -/
def runAgent (exec : ExecOracle) (t : PTask) : Except String Json :=
  match t.agent with
  | .designer => exec t
  | .coder => exec t
  | a => .error ("Unknown agent type: AgentRole." ++ a.value)

/-- The structured content of the two exceptions `_execute_plan` raises. -/
inductive ExecError where
  | stuck (pendingIds : List String) : ExecError
  | taskFailed (taskId : String) (msg : String) : ExecError

/-- The Python message text of an `_execute_plan` exception
(`str(e)` as stored by `process_goal`). -/
def ExecError.msg : ExecError → String
  | .stuck ids =>
    "Execution stuck - unable to proceed with tasks: [" ++
      String.intercalate ", " (ids.map (fun s => ⟨[squoteC]⟩ ++ s ++ ⟨[squoteC]⟩)) ++ "]"
  | .taskFailed tid m => "Task " ++ tid ++ " failed: " ++ m

/-- The mutable orchestration state threaded through `_execute_plan`. -/
structure SchedSt where
  tasks : List PTask
  executed : List String
  results : List (String × Json)
  clock : Nat

/-- Update the task with the given id in place (`Task` objects are
mutated through the `self.tasks` dict; ids are unique dict keys). -/
def updById (ts : List PTask) (tid : String) (f : PTask → PTask) : List PTask :=
  ts.map (fun u => if u.id = tid then f u else u)

/-- `ready_tasks`: the `pending` tasks all of whose dependencies are in
`executed_tasks`, in dict insertion order. -/
def readyTasks (ts : List PTask) (executed : List String) : List PTask :=
  ts.filter (fun t => t.status = TaskStatus.pending &&
    t.dependencies.all (fun d => executed.contains d))

/-- A trace of dispatches: each entry is the dispatched task's id paired
with the task list at the instant its status was set to `in_progress`
(source line `task.status = TaskStatus.IN_PROGRESS`). -/
abbrev Trace : Type := List (String × List PTask)

/-- `task.status = TaskStatus.IN_PROGRESS; task.updated_at = now()` —
the task list at the dispatch instant. -/
def inProgressTasks (t : PTask) (st : SchedSt) : List PTask :=
  updById st.tasks t.id
    (fun u => { u with status := .in_progress, updated_at := st.clock })

/-- The success path of the loop body: store the output, mark
`completed`, add the task to `executed_tasks`, record its result. -/
def stepOk (t : PTask) (result : Json) (st : SchedSt) : SchedSt :=
  { tasks := updById (inProgressTasks t st) t.id
      (fun u => { u with output_data := result, status := .completed,
                         updated_at := st.clock + 1 }),
    executed := setAdd st.executed t.id,
    results := resultsInsert st.results t.id result,
    clock := st.clock + 2 }

/-- The exception path before recovery: mark `failed`, store the error
message. -/
def stepFail (t : PTask) (e : String) (st : SchedSt) : SchedSt :=
  { st with
    tasks := updById (inProgressTasks t st) t.id
      (fun u => { u with status := .failed, error_message := some e,
                         updated_at := st.clock + 1 }),
    clock := st.clock + 2 }

/-- The (currently unreachable) successful-recovery path: downgrade the
failure to `completed` with the recovery result. -/
def stepRecover (t : PTask) (e : String) (recovery : Json) (st : SchedSt) : SchedSt :=
  { tasks := updById (stepFail t e st).tasks t.id
      (fun u => { u with status := .completed, output_data := recovery }),
    executed := setAdd st.executed t.id,
    results := resultsInsert st.results t.id recovery,
    clock := st.clock + 2 }

/-- The `for task in ready_tasks` body of `_execute_plan`: set
`in_progress`, dispatch by role; on success store output, mark
`completed`, record the task as executed; on exception mark `failed`,
consult the recovery hook, and — recovery being `None` — raise
`Task <id> failed: <e>`.  Always returns the state reached (on error,
the state in which the failed task carries status `failed`). -/
def processBatch (exec : ExecOracle) :
    List PTask → SchedSt → Trace → Except ExecError Unit × SchedSt × Trace
  | [], st, trace => (.ok (), st, trace)
  | t :: rest, st, trace =>
    let trace1 := trace ++ [(t.id, inProgressTasks t st)]
    match runAgent exec t with
    | .ok result => processBatch exec rest (stepOk t result st) trace1
    | .error e =>
      match attempt_recovery t e with
      | some recovery => processBatch exec rest (stepRecover t e recovery st) trace1
      | none => (.error (.taskFailed t.id e), stepFail t e st, trace1)

/-- The `while len(executed_tasks) < len(plan["subtasks"])` loop of
`_execute_plan`, with fuel standing in for the absent bound (the
fuel-sufficiency lemma below shows `nSubtasks + 1` never runs out).
`none` in the first component means the fuel ran out. -/
def execLoopAux (exec : ExecOracle) (nSubtasks : Nat) :
    Nat → SchedSt → Trace → Option (Except ExecError Unit) × SchedSt × Trace
  | fuel, st, trace =>
    if st.executed.length < nSubtasks then
      match fuel with
      | 0 => (none, st, trace)
      | fuel + 1 =>
        match readyTasks st.tasks st.executed with
        | [] =>
          let pending := st.tasks.filter (fun t => t.status = TaskStatus.pending)
          if pending.isEmpty then (some (.ok ()), st, trace)
          else (some (.error (.stuck (pending.map (fun t => t.id)))), st, trace)
        | b :: bs =>
          match processBatch exec (b :: bs) st trace with
          | (.ok (), st2, trace2) => execLoopAux exec nSubtasks fuel st2 trace2
          | (.error e, st2, trace2) => (some (.error e), st2, trace2)
    else (some (.ok ()), st, trace)

/-- Model of `MultiAgentOrchestrator._execute_plan` for a plan whose
tasks have been loaded into the graph. -/
def execute_plan (exec : ExecOracle) (plan : Json) (st : SchedSt) :
    Option (Except ExecError Unit) × SchedSt × Trace :=
  let n := match jsonGetD plan "subtasks" (.jarr []) with
    | .jarr subs => subs.length
    | _ => 0
  execLoopAux exec n (n + 1) st []

/-- Model of `MultiAgentOrchestrator._finalize_execution`. -/
structure FinalSummary where
  execution_complete : Bool
  tasks_completed : Nat
  tasks_failed : Nat
  deliverables : List (String × Json)
  session_id : String

/-- `_finalize_execution` counts terminal states and repackages the
results. -/
def finalize_execution (results : List (String × Json)) (sid : String)
    (ts : List PTask) : FinalSummary :=
  { execution_complete := true,
    tasks_completed := (ts.filter (fun t => t.status = TaskStatus.completed)).length,
    tasks_failed := (ts.filter (fun t => t.status = TaskStatus.failed)).length,
    deliverables := results, session_id := sid }

/-- The dict `process_goal` returns: the success shape or the
`status: "failed"` shape with the error message and
`[task.__dict__ for task in self.tasks.values()]`. -/
inductive GoalResult where
  | completed (session_id : String) (plan : Json) (results : List (String × Json))
      (final_output : FinalSummary) : GoalResult
  | failed (session_id : String) (error : String) (tasks : List PTask) : GoalResult

/-- The `session_id` key present in both shapes. -/
def GoalResult.sessionId : GoalResult → String
  | .completed sid _ _ _ => sid
  | .failed sid _ _ => sid

/-- Model of `MultiAgentOrchestrator.process_goal`: plan, execute,
finalize inside one `try`; any raised exception becomes the
`status: "failed"` dict carrying `str(e)` and the task list.  The
session id is the fresh `uuid4` value, supplied as a parameter.  The
fuel-exhaustion branch is unreachable (lemma `execLoop_fuel_sufficient`
below): the source's unbounded `while` always terminates from the
states `call_planner` produces. -/
def process_goal (sid : String) (ollama : Except String String)
    (exec : ExecOracle) : GoalResult :=
  match call_planner ollama sid 0 with
  | (.error e, ts, _) => .failed sid e ts
  | (.ok plan, ts, ck) =>
    match execute_plan exec plan ⟨ts, [], [], ck⟩ with
    | (some (.ok ()), st2, _) =>
      .completed sid plan st2.results (finalize_execution st2.results sid st2.tasks)
    | (some (.error e), st2, _) => .failed sid e.msg st2.tasks
    | (none, st2, _) => .failed sid "loop fuel exhausted (unreachable)" st2.tasks

/-- A pending coder task with the given id and dependencies (concrete
evaluation helper). -/
def mkT (tid : String) (deps : List String) : PTask :=
  { id := tid, type := "code", description := "task " ++ tid, agent := .coder,
    status := .pending, input_data := .jobj [], output_data := .jobj [],
    dependencies := deps, created_at := 0, updated_at := 0 }

/-- An execution oracle that always succeeds (concrete evaluation
helper). -/
def okExec : ExecOracle := fun _ => .ok (.jobj [("done", .jbool true)])

/-! ## Session status reporter (`get_session_status`,
`_calculate_task_progress`, `_calculate_overall_progress`)

Progress figures are Python floats whose values here are ratios of small
integers; they are modelled as exact rationals (every per-task figure is
one of 100.0, 50.0, 0.0, all float-exact, and the overall figure is
their float-exact mean for the graph sizes any claim touches). -/

/-- Model of `_calculate_task_progress`. -/
def calculate_task_progress (t : PTask) : ℚ :=
  if t.status = TaskStatus.completed then 100
  else if t.status = TaskStatus.in_progress then 50
  else if t.status = TaskStatus.failed then 0
  else 0

/-- Model of `_calculate_overall_progress`. -/
def calculate_overall_progress (ts : List PTask) : ℚ :=
  if ts.isEmpty then 0
  else (ts.map calculate_task_progress).sum / ts.length

/-- One entry of the `tasks` list in the status snapshot. -/
structure TaskStatusEntry where
  id : String
  description : String
  agent : String
  status : String
  progress : ℚ
  updated_at : Nat

/-- The snapshot dict returned by `get_session_status`. -/
structure SessionStatus where
  session_id : Option String
  tasks : List TaskStatusEntry
  overall_progress : ℚ

/-- Python `session_id or self.active_session_id` (`None` and the empty
string are falsy). -/
def orFalsy (a b : Option String) : Option String :=
  match a with
  | some s => if s = "" then b else some s
  | none => b

/-- Model of `MultiAgentOrchestrator.get_session_status`. -/
def get_session_status (ts : List PTask) (active_session_id : Option String)
    (session_id : Option String) : SessionStatus :=
  { session_id := orFalsy session_id active_session_id,
    tasks := ts.map (fun t =>
      { id := t.id, description := t.description, agent := t.agent.value,
        status := t.status.value, progress := calculate_task_progress t,
        updated_at := t.updated_at }),
    overall_progress := calculate_overall_progress ts }

/-- The specification's wording of the overall figure, for comparison:
the arithmetic mean of the per-task progress values, `0` on an empty
graph (spec §4.6). -/
def specArithmeticMean (xs : List ℚ) : ℚ :=
  if xs.isEmpty then 0 else xs.sum / xs.length

/-- The parsing stage of the structured loop: each regex match's name
together with `json.loads` of its `args` capture (`some` exactly when
the capture parses, i.e. when the match's `except` branch is not
taken). -/
def parseStructuredCalls (response : String) : List (String × Option Json) :=
  (findJsonToolCalls response.toList.length response.toList).map
    (fun nmargs => (⟨nmargs.1⟩, json_loads nmargs.2))

/-- The `status` key of the dict `process_goal` returns. -/
def GoalResult.status : GoalResult → String
  | .completed _ _ _ _ => "completed"
  | .failed _ _ _ => "failed"

/-- All task ids in the graph are distinct (they are `dict` keys). -/
def idsNodup (ts : List PTask) : Prop :=
  (ts.map (fun t => t.id)).Nodup

/-- The scheduler-loop invariant: task ids are `dict` keys (distinct),
`executed_tasks` is a set, and every executed id belongs to a task that
reached `completed`. -/
def execInv (st : SchedSt) : Prop :=
  idsNodup st.tasks ∧ st.executed.Nodup ∧
    ∀ tid ∈ st.executed, ∃ t ∈ st.tasks, t.id = tid ∧ t.status = TaskStatus.completed

/-- A dispatch-instant snapshot is good when the dispatched task's every
dependency resolves, in that snapshot, to a task with status
`completed`. -/
def goodSnap (tid : String) (snap : List PTask) : Prop :=
  ∀ u ∈ snap, u.id = tid → ∀ d ∈ u.dependencies,
    ∃ v, v ∈ snap ∧ v.id = d ∧ v.status = TaskStatus.completed

/-- Every batch member's id resolves only to `pending` tasks whose
dependencies are all executed (what `ready_tasks` guarantees when the
batch is computed). -/
def batchOK (st : SchedSt) (batch : List PTask) : Prop :=
  ∀ t ∈ batch, ∀ w ∈ st.tasks, w.id = t.id →
    w.status = TaskStatus.pending ∧ ∀ d ∈ w.dependencies, d ∈ st.executed

/-- A planner response whose single subtask references a dependency id
(`missing`) that no task in the plan carries. -/
def planMissingDepText : String :=
  "```json\n\x7b\"subtasks\": [\x7b\"id\": \"t1\", \"type\": \"code\", \"description\": \"build\", \"agent\": \"coder\", \"dependencies\": [\"missing\"]\x7d]\x7d\n```"

/-- A planner response whose first subtask forward-references its
sibling `B`, declared later in the same plan. -/
def planForwardRefText : String :=
  "```json\n\x7b\"subtasks\": [\x7b\"id\": \"A\", \"type\": \"code\", \"description\": \"uses B\", \"agent\": \"coder\", \"dependencies\": [\"B\"]\x7d, \x7b\"id\": \"B\", \"type\": \"code\", \"description\": \"base\", \"agent\": \"coder\", \"dependencies\": []\x7d]\x7d\n```"

/-- The exact character sequence
`{"tool": "<name>", "args": {<inner>}}` (single spaces after the
colons), the shape named by the claim. -/
def toolFragment (name inner : List Char) : List Char :=
  [lbraceC, dquoteC, 't', 'o', 'o', 'l', dquoteC, ':', ' ', dquoteC] ++ name ++
  [dquoteC, ',', ' ', dquoteC, 'a', 'r', 'g', 's', dquoteC, ':', ' ', lbraceC] ++ inner ++
  [rbraceC, rbraceC]

/-! ## Lemmas: characters reached by the scanners -/

theorem skipWs_head_mem {l r : List Char} {c : Char}
    (h : skipWs l = c :: r) : c ∈ l := by
  induction l with
  | nil => simp [skipWs] at h
  | cons a t ih =>
    rw [skipWs] at h
    by_cases ha : pyIsSpace a = true
    · rw [if_pos ha] at h
      exact List.mem_cons_of_mem _ (ih h)
    · rw [if_neg ha] at h
      cases h
      exact List.mem_cons_self _ _

theorem dropLit_sub {lit l r : List Char} (h : dropLit lit l = some r) :
    ∀ c ∈ r, c ∈ l := by
  induction lit generalizing l with
  | nil =>
    simp [dropLit] at h
    subst h
    intro c hc
    exact hc
  | cons a as ih =>
    cases l with
    | nil => simp [dropLit] at h
    | cons d ds =>
      rw [dropLit] at h
      by_cases had : a = d
      · rw [if_pos had] at h
        intro c hc
        exact List.mem_cons_of_mem _ (ih h c hc)
      · rw [if_neg had] at h
        cases h

theorem fencedOpen_eq_none {l : List Char} (h : lbraceC ∉ l) :
    fencedOpen l = none := by
  unfold fencedOpen
  cases hw : skipWs l with
  | nil => rfl
  | cons c rest =>
    have hc : c ∈ l := skipWs_head_mem hw
    have hne : ¬ (c = lbraceC) := fun e => h (e ▸ hc)
    simp [hne]

theorem tryFencedAt_eq_none {l : List Char} (h : lbraceC ∉ l) :
    tryFencedAt l = none := by
  match l with
  | [] => rfl
  | [b1] => rfl
  | [b1, b2] => rfl
  | b1 :: b2 :: b3 :: rest =>
    have hrest : lbraceC ∉ rest := fun hm => h (by simp [hm])
    rw [tryFencedAt]
    split
    · cases hd : dropLit ['j', 's', 'o', 'n'] rest with
      | none => simp [hd, fencedOpen_eq_none hrest]
      | some rest2 =>
        have h2 : lbraceC ∉ rest2 := fun hm => hrest (dropLit_sub hd _ hm)
        simp [hd, fencedOpen_eq_none h2, fencedOpen_eq_none hrest]
    · rfl

theorem findFencedObject_eq_none {l : List Char} (h : lbraceC ∉ l) :
    findFencedObject l = none := by
  induction l with
  | nil => rfl
  | cons c rest ih =>
    rw [findFencedObject, tryFencedAt_eq_none h]
    exact ih (fun hm => h (List.mem_cons_of_mem _ hm))

theorem firstIdxOf_eq_none {p : Char → Bool} {l : List Char}
    (h : ∀ c ∈ l, p c = false) : firstIdxOf p l = none := by
  induction l with
  | nil => rfl
  | cons c rest ih =>
    rw [firstIdxOf, if_neg (by simp [h c (List.mem_cons_self _ _)]),
      ih (fun d hd => h d (List.mem_cons_of_mem _ hd))]
    rfl

theorem extract_json_no_lbrace {text : String} (h : lbraceC ∉ text.toList) :
    extract_json text = .error (extractFailMsg text) := by
  have h2 : firstIdxOf (fun c => decide (c = lbraceC)) text.toList = none :=
    firstIdxOf_eq_none (fun c hc => by
      simp only [decide_eq_false_iff_not]
      exact fun e => h (e ▸ hc))
  unfold extract_json extractFallback
  simp only [findFencedObject_eq_none h, h2]

/-! ## Claim C4 — plan extraction -/

/-- C4 (counterexample): the fenced pattern `(\{.*?\})` captures only
JSON objects, so a JSON array wrapped in a fenced code block is *not*
returned parsed — extraction raises instead (the brace fallback finds no
opening brace either).  This refutes the claim that extraction returns
the parsed array for such input. -/
theorem c4_fenced_array_fails :
    extract_json "```json\n[1, 2]\n```" ≠ .ok (.jarr [.jnum 1, .jnum 2])
    ∧ extract_json "```json\n[1, 2]\n```"
        = .error (extractFailMsg "```json\n[1, 2]\n```") := by
  constructor
  · intro h
    rw [show extract_json "```json\n[1, 2]\n```"
          = .error (extractFailMsg "```json\n[1, 2]\n```") from rfl] at h
    exact Except.noConfusion h
  · rfl

/-- C4 (amended): plan extraction first looks for a fenced code block
containing a JSON *object* and returns the first parseable such match;
a JSON array wrapped in a fenced code block signals extraction failure
(neither the fenced pattern, which captures only `{...}`, nor the brace
fallback applies), and an input containing no brackets at all (in
particular, no opening brace) signals extraction failure whose message
carries at most the first 200 characters of the text, instead of
throwing an unrelated exception. -/
theorem c4_extraction_behavior :
    (extract_json "plan:\n```json\n\x7b\"a\": 1\x7d\n```\ndone"
        = .ok (.jobj [("a", .jnum 1)]))
    ∧ (extract_json "```\n\x7b\"x\": 2\x7d\n``` and ```json\n\x7b\"y\": 3\x7d\n```"
        = .ok (.jobj [("x", .jnum 2)]))
    ∧ (extract_json "```json\n[1, 2]\n```"
        = .error (extractFailMsg "```json\n[1, 2]\n```"))
    ∧ (∀ text : String, lbraceC ∉ text.toList →
        extract_json text = .error (extractFailMsg text)
        ∧ extractFailMsg text
            = "No valid JSON found in response: "
                ++ (⟨text.toList.take 200⟩ : String) ++ "..."
        ∧ (text.toList.take 200).length ≤ 200) := by
  refine ⟨rfl, rfl, rfl, fun text h => ⟨extract_json_no_lbrace h, rfl, ?_⟩⟩
  rw [List.length_take]
  exact min_le_left _ _

/-- C4 (witness): the general no-bracket conjunct applied to a concrete
bracket-free text. -/
theorem c4_extraction_behavior_witness :
    extract_json "thinking about the plan" =
      .error (extractFailMsg "thinking about the plan")
    ∧ extractFailMsg "thinking about the plan"
        = "No valid JSON found in response: "
            ++ (⟨("thinking about the plan").toList.take 200⟩ : String) ++ "..."
    ∧ (("thinking about the plan").toList.take 200).length ≤ 200 :=
  c4_extraction_behavior.2.2.2 "thinking about the plan" (by decide)

/-! ## Claim C6 — legacy dialect parsing -/

/-- C6: for a text containing exactly one legacy call
`TOOL_CALL:write_file(path=/tmp/a.txt, content=hello)`, parsing yields
exactly one call named `write_file` whose arguments map `path` to
`/tmp/a.txt` and `content` to `hello` — values opaque strings, the
surrounding whitespace stripped (and optional quotes, exercised by the
`strip('"\x27')` in the model, absent here). -/
theorem c6_legacy_call_parsing :
    parseLegacyCalls
      "Writing the file now. TOOL_CALL:write_file(path=/tmp/a.txt, content=hello) Done."
      = [("write_file", [("path", "/tmp/a.txt"), ("content", "hello")])] := by rfl

/-! ## Lemmas: maximal runs against a delimiter -/

theorem takeWhile_append_cons {p : Char → Bool} {l1 l2 : List Char} {x : Char}
    (h1 : ∀ c ∈ l1, p c = true) (hx : p x = false) :
    (l1 ++ x :: l2).takeWhile p = l1 := by
  induction l1 with
  | nil => simp [List.takeWhile, hx]
  | cons a t ih =>
    have ha : p a = true := h1 a (List.mem_cons_self _ _)
    simp only [List.cons_append, List.takeWhile, ha]
    rw [show t.append (x :: l2) = t ++ x :: l2 from rfl,
      ih (fun c hc => h1 c (List.mem_cons_of_mem _ hc))]

theorem dropWhile_append_cons {p : Char → Bool} {l1 l2 : List Char} {x : Char}
    (h1 : ∀ c ∈ l1, p c = true) (hx : p x = false) :
    (l1 ++ x :: l2).dropWhile p = x :: l2 := by
  induction l1 with
  | nil => simp [List.dropWhile, hx]
  | cons a t ih =>
    have ha : p a = true := h1 a (List.mem_cons_self _ _)
    simp only [List.cons_append, List.dropWhile, ha]
    exact ih (fun c hc => h1 c (List.mem_cons_of_mem _ hc))

/-! ## Claim C5 — structured dialect parsing -/

/-- C5 (counterexample): a structured fragment whose `args` object holds
a nested object is *not* parsed: the capture `\{[^}]*\}` cuts the
arguments at the first closing brace, and `json.loads` rejects the
truncated text (`none` below), so no parsed ToolCall is produced. -/
theorem c5_nested_args_counterexample :
    parseStructuredCalls
      "\x7b\"tool\": \"write_file\", \"args\": \x7b\"path\": \"/a\", \"meta\": \x7b\"x\": 1\x7d\x7d\x7d"
      = [("write_file", none)] := by rfl

theorem dropLit_self_append (lit r : List Char) : dropLit lit (lit ++ r) = some r := by
  induction lit with
  | nil => rfl
  | cons c cs ih => simp [dropLit, ih]

theorem jtName_fragment {name r3 : List Char}
    (hne : name.isEmpty = false)
    (hq : ∀ c ∈ name, (!decide (c = dquoteC)) = true) :
    jtName (' ' :: dquoteC :: (name ++ dquoteC :: ',' :: r3)) = some (name, r3) := by
  have hsw : skipWs (' ' :: dquoteC :: (name ++ dquoteC :: ',' :: r3))
      = dquoteC :: (name ++ dquoteC :: ',' :: r3) := by
    rw [skipWs, if_pos (by decide), skipWs, if_neg (by decide)]
  rw [jtName, hsw]
  have htw : (name ++ dquoteC :: ',' :: r3).takeWhile (fun d => !(d = dquoteC))
      = name := @takeWhile_append_cons _ name (',' :: r3) dquoteC hq (by decide)
  have hdw : (name ++ dquoteC :: ',' :: r3).dropWhile (fun d => !(d = dquoteC))
      = dquoteC :: ',' :: r3 :=
    @dropWhile_append_cons _ name (',' :: r3) dquoteC hq (by decide)
  simp [htw, hdw, hne]

theorem jtArgs_fragment {inner r7 : List Char}
    (hr : ∀ c ∈ inner, (!decide (c = rbraceC)) = true) :
    jtArgs (' ' :: dquoteC :: 'a' :: 'r' :: 'g' :: 's' :: dquoteC :: ':' ::
        (' ' :: lbraceC :: (inner ++ rbraceC :: rbraceC :: r7)))
      = some (lbraceC :: inner ++ [rbraceC], r7) := by
  have hsw : skipWs (' ' :: dquoteC :: 'a' :: 'r' :: 'g' :: 's' :: dquoteC :: ':' ::
        (' ' :: lbraceC :: (inner ++ rbraceC :: rbraceC :: r7)))
      = dquoteC :: 'a' :: 'r' :: 'g' :: 's' :: dquoteC :: ':' ::
        (' ' :: lbraceC :: (inner ++ rbraceC :: rbraceC :: r7)) := by
    rw [skipWs, if_pos (by decide), skipWs, if_neg (by decide)]
  rw [jtArgs, hsw]
  rw [show (dquoteC :: 'a' :: 'r' :: 'g' :: 's' :: dquoteC :: ':' ::
        (' ' :: lbraceC :: (inner ++ rbraceC :: rbraceC :: r7)))
      = [dquoteC, 'a', 'r', 'g', 's', dquoteC, ':']
        ++ (' ' :: lbraceC :: (inner ++ rbraceC :: rbraceC :: r7)) from rfl,
    dropLit_self_append]
  have hsw2 : skipWs (' ' :: lbraceC :: (inner ++ rbraceC :: rbraceC :: r7))
      = lbraceC :: (inner ++ rbraceC :: rbraceC :: r7) := by
    rw [skipWs, if_pos (by decide), skipWs, if_neg (by decide)]
  have htw : (inner ++ rbraceC :: rbraceC :: r7).takeWhile (fun e => !(e = rbraceC))
      = inner := @takeWhile_append_cons _ inner (rbraceC :: r7) rbraceC hr (by decide)
  have hdw : (inner ++ rbraceC :: rbraceC :: r7).dropWhile (fun e => !(e = rbraceC))
      = rbraceC :: rbraceC :: r7 :=
    @dropWhile_append_cons _ inner (rbraceC :: r7) rbraceC hr (by decide)
  simp [hsw2, htw, hdw]

theorem tryJsonToolAt_fragment {name inner : List Char}
    (hne : name.isEmpty = false)
    (hq : ∀ c ∈ name, (!decide (c = dquoteC)) = true)
    (hr : ∀ c ∈ inner, (!decide (c = rbraceC)) = true) :
    tryJsonToolAt (toolFragment name inner)
      = some ((name, lbraceC :: (inner ++ [rbraceC])), []) := by
  have e1 : toolFragment name inner
      = [lbraceC, dquoteC, 't', 'o', 'o', 'l', dquoteC, ':']
        ++ (' ' :: dquoteC ::
          (name ++ dquoteC :: ',' ::
            (' ' :: dquoteC :: 'a' :: 'r' :: 'g' :: 's' :: dquoteC :: ':' ::
              (' ' :: lbraceC :: (inner ++ rbraceC :: rbraceC :: []))))) := by
    simp [toolFragment]
  rw [tryJsonToolAt, e1, dropLit_self_append]
  simp [jtName_fragment hne hq, jtArgs_fragment hr]

theorem findJsonToolCalls_of_head {l : List Char} {m : List Char × List Char}
    {fuel : Nat} (hf : fuel ≠ 0) (hl : l ≠ [])
    (h : tryJsonToolAt l = some (m, [])) :
    findJsonToolCalls fuel l = [m] := by
  cases fuel with
  | zero => cases hf rfl
  | succ k =>
    cases l with
    | nil => cases hl rfl
    | cons c rest =>
      rw [findJsonToolCalls, h]
      have hnil : findJsonToolCalls k ([] : List Char) = [] := by
        cases k <;> rfl
      show m :: findJsonToolCalls k [] = [m]
      rw [hnil]

theorem parseStructuredCalls_fragment {name inner : List Char}
    {o : List (String × Json)}
    (hne : name.isEmpty = false)
    (hq : ∀ c ∈ name, (!decide (c = dquoteC)) = true)
    (hr : ∀ c ∈ inner, (!decide (c = rbraceC)) = true)
    (hparse : json_loads (lbraceC :: inner ++ [rbraceC]) = some (.jobj o)) :
    parseStructuredCalls ⟨toolFragment name inner⟩ = [(⟨name⟩, some (.jobj o))] := by
  unfold parseStructuredCalls
  have htl : (String.mk (toolFragment name inner)).toList = toolFragment name inner := rfl
  rw [htl]
  rw [findJsonToolCalls_of_head
    (show (toolFragment name inner).length ≠ 0 from Nat.succ_ne_zero _)
    (show toolFragment name inner ≠ [] from List.cons_ne_nil _ _)
    (tryJsonToolAt_fragment hne hq hr)]
  simp only [List.map]
  rw [show lbraceC :: (inner ++ [rbraceC]) = lbraceC :: inner ++ [rbraceC] from rfl,
    hparse]

/-- C5 (amended): a structured fragment `{"tool": "name", "args": {...}}`
is extracted with its args parsed as a JSON object only when the args
text contains no closing brace before its own (flat objects); a nested
args object is captured truncated at the first closing brace and fails
to parse.  First conjunct: every flat fragment (nonempty quote-free
name, closing-brace-free parseable args body) yields exactly one parsed
call.  Second conjunct: the spec's example, carried through dispatch,
records one entry with the parsed args.  Third conjunct: the nested
example yields the call with unparsed (`none`) args. -/
theorem c5_structured_parsing :
    (∀ (name inner : List Char) (o : List (String × Json)),
        name.isEmpty = false →
        (∀ c ∈ name, (!decide (c = dquoteC)) = true) →
        (∀ c ∈ inner, (!decide (c = rbraceC)) = true) →
        json_loads (lbraceC :: inner ++ [rbraceC]) = some (.jobj o) →
        parseStructuredCalls ⟨toolFragment name inner⟩ = [(⟨name⟩, some (.jobj o))])
    ∧ (∀ (runTool : RunToolOracle) (http : HttpOracle),
        execute_tool_calls runTool http
          "\x7b\"tool\": \"run_shell\", \"args\": \x7b\"command\": \"echo hi\"\x7d\x7d"
          = [.structOk "run_shell" (.jobj [("command", .jstr "echo hi")])
              (call_tool_endpoint http "run_shell" (.jobj [("command", .jstr "echo hi")]))
              (jsonGetD (call_tool_endpoint http "run_shell"
                  (.jobj [("command", .jstr "echo hi")])) "success" (.jbool false))])
    ∧ parseStructuredCalls
        "\x7b\"tool\": \"write_file\", \"args\": \x7b\"path\": \"/a\", \"meta\": \x7b\"x\": 1\x7d\x7d\x7d"
        = [("write_file", none)] :=
  ⟨fun _ _ _ hne hq hr hp => parseStructuredCalls_fragment hne hq hr hp,
   fun _ _ => rfl, rfl⟩

/-- C5 (witness): the flat-fragment conjunct applied to the spec's
`run_shell` example. -/
theorem c5_structured_parsing_witness :
    parseStructuredCalls
        ⟨toolFragment ("run_shell".toList) ("\"command\": \"echo hi\"".toList)⟩
      = [(⟨("run_shell".toList)⟩, some (.jobj [("command", .jstr "echo hi")]))] :=
  c5_structured_parsing.1 ("run_shell".toList) ("\"command\": \"echo hi\"".toList)
    [("command", .jstr "echo hi")] (by decide) (by decide) (by decide) (by rfl)

/-! ## Claim C7 — unknown tool names -/

/-- C7 (counterexample): on the in-process legacy path an unknown tool
name records *nothing*: the `hasattr` guard has no `else` branch, so the
call is silently dropped and no `{success: false, error: "Unknown tool:
..."}` entry appears — the tool-results list is empty. -/
theorem c7_legacy_unknown_counterexample :
    execute_tool_calls dummyRun dummyHttp "TOOL_CALL:frobnicate(x=1)" = [] := by rfl

/-- C7 (amended): on the remote-endpoint (structured) path every unknown
tool name short-circuits to a recorded `{success: false, error:
"Unknown tool: <name>"}` result; on the in-process (legacy) path a call
whose name is not an attribute of the tools object is silently skipped,
recording no result at all. -/
theorem c7_unknown_tool_dispatch :
    (∀ (http : HttpOracle) (tool_name : String) (args : Json),
        lookupStr tool_endpoints tool_name = none →
        call_tool_endpoint http tool_name args
          = errResult ("Unknown tool: " ++ tool_name))
    ∧ (∀ (runTool : RunToolOracle) (http : HttpOracle),
        execute_tool_calls runTool http
          "\x7b\"tool\": \"telepath\", \"args\": \x7b\"a\": 1\x7d\x7d"
          = [.structOk "telepath" (.jobj [("a", .jnum 1)])
              (errResult "Unknown tool: telepath") (.jbool false)])
    ∧ (∀ (runTool : RunToolOracle) (http : HttpOracle),
        execute_tool_calls runTool http "TOOL_CALL:frobnicate(x=1)" = []) := by
  refine ⟨fun http tn args h => ?_, fun _ _ => rfl, fun _ _ => rfl⟩
  unfold call_tool_endpoint
  rw [h]

/-- C7 (witness): the endpoint conjunct applied to a concrete unknown
name. -/
theorem c7_unknown_tool_dispatch_witness :
    call_tool_endpoint dummyHttp "telekinesis" (.jobj [])
      = errResult ("Unknown tool: " ++ "telekinesis") :=
  c7_unknown_tool_dispatch.1 dummyHttp "telekinesis" (.jobj []) (by rfl)

/-! ## Claim C8 — dependency validation at graph construction -/

/-- C8 (counterexample): inserting a task whose dependency id occurs
nowhere in the plan does *not* fail at graph-construction time —
`_call_planner` performs no dependency validation at all.  The plan is
accepted (`isSome`), the task is in the graph, and the failure surfaces
only later, from the scheduler, as the execution-stuck error. -/
theorem c8_no_construction_check_counterexample :
    (call_planner (.ok planMissingDepText) "s1" 0).1.toOption.isSome = true
    ∧ (call_planner (.ok planMissingDepText) "s1" 0).2.1.map (fun t => t.id) = ["t1"]
    ∧ (process_goal "s1" (.ok planMissingDepText) okExec).status = "failed" := by
  refine ⟨rfl, rfl, rfl⟩

/-- C8 (amended): graph construction accepts any dependency ids — a
task referencing an id absent from the plan is inserted without error
(there is no `InvalidDependency` check), and the missing dependency
surfaces only at scheduling time as the execution-stuck session failure
naming the stuck task; a forward reference to a sibling declared later
in the same plan is likewise accepted, and such a plan executes to
completion. -/
theorem c8_dependency_handling :
    (call_planner (.ok planMissingDepText) "s1" 0).1.toOption.isSome = true
    ∧ (call_planner (.ok planMissingDepText) "s1" 0).2.1.map (fun t => t.id) = ["t1"]
    ∧ (∃ tasks, process_goal "s1" (.ok planMissingDepText) okExec
        = .failed "s1" (ExecError.stuck ["t1"]).msg tasks)
    ∧ (call_planner (.ok planForwardRefText) "s2" 0).2.1.map (fun t => t.id) = ["A", "B"]
    ∧ (process_goal "s2" (.ok planForwardRefText) okExec).status = "completed" := by
  exact ⟨rfl, rfl, ⟨_, rfl⟩, rfl, rfl⟩

/-! ## Claim C9 — session status progress -/

/-- C9: the status report assigns each task progress 100 when
`completed`, 50 when `in_progress`, and 0 for every other status
(`failed` and the rest both fall to 0); the overall figure equals the
arithmetic mean of the reported per-task figures, 0 on an empty graph;
and the 2-task graph with one `completed` and one `pending` task reports
overall progress 50. -/
theorem c9_progress_report :
    (∀ t : PTask,
        calculate_task_progress t
          = if t.status = TaskStatus.completed then 100
            else if t.status = TaskStatus.in_progress then 50 else 0)
    ∧ (∀ (ts : List PTask) (act sid : Option String),
        (get_session_status ts act sid).overall_progress
          = specArithmeticMean
              ((get_session_status ts act sid).tasks.map (fun e => e.progress)))
    ∧ (∀ act sid : Option String, (get_session_status [] act sid).overall_progress = 0)
    ∧ (get_session_status [{ mkT "A" [] with status := .completed }, mkT "B" []]
        none none).overall_progress = 50 := by
  refine ⟨fun t => ?_, fun ts act sid => ?_, fun act sid => rfl, ?_⟩
  · unfold calculate_task_progress
    split_ifs <;> rfl
  · unfold get_session_status specArithmeticMean calculate_overall_progress
    cases ts with
    | nil => simp
    | cons h t => simp [List.map_map, Function.comp_def]
  · simp +decide [get_session_status, calculate_overall_progress,
      calculate_task_progress, mkT]
    norm_num

/-! ## Claim C2 — two-cycle deadlock -/

/-- C2: for a task graph whose two tasks form a 2-cycle (each pending,
each depending on the other), the scheduler loop halts on its first
iteration — for every remaining fuel, i.e. the source's unbounded
`while` does not loop — raising the execution-stuck error whose payload
names both task ids. -/
theorem c2_two_cycle_stuck :
    ∀ (exec : ExecOracle) (fuel clock : Nat) (tA tB : PTask),
      tA.status = TaskStatus.pending → tB.status = TaskStatus.pending →
      tA.dependencies = [tB.id] → tB.dependencies = [tA.id] →
      (execLoopAux exec 2 (fuel + 1) ⟨[tA, tB], [], [], clock⟩ []).1
        = some (.error (.stuck [tA.id, tB.id])) := by
  intro exec fuel clock tA tB hA hB hdA hdB
  have hready : readyTasks [tA, tB] [] = [] := by
    unfold readyTasks
    simp [hdA, hdB]
  simp [execLoopAux, hready, hA, hB]

/-! ## Lemmas: the scheduler state machine -/

theorem eq_of_same_id {ts : List PTask} (h : idsNodup ts) {a b : PTask}
    (ha : a ∈ ts) (hb : b ∈ ts) (hid : a.id = b.id) : a = b :=
  List.inj_on_of_nodup_map h ha hb hid

theorem mem_updById_iff {ts : List PTask} {tid : String} {f : PTask → PTask}
    {u : PTask} :
    u ∈ updById ts tid f ↔ ∃ w ∈ ts, u = if w.id = tid then f w else w := by
  unfold updById
  constructor
  · intro h
    obtain ⟨w, hw, he⟩ := List.mem_map.mp h
    exact ⟨w, hw, he.symm⟩
  · rintro ⟨w, hw, he⟩
    exact he ▸ List.mem_map_of_mem _ hw

theorem updById_map_id {ts : List PTask} {tid : String} {f : PTask → PTask}
    (hf : ∀ u, (f u).id = u.id) :
    (updById ts tid f).map (fun u => u.id) = ts.map (fun u => u.id) := by
  induction ts with
  | nil => rfl
  | cons a t ih =>
    show ((if a.id = tid then f a else a) :: updById t tid f).map (fun u => u.id) = _
    simp only [List.map]
    rw [ih]
    congr 1
    by_cases h : a.id = tid
    · rw [if_pos h, hf a]
    · rw [if_neg h]

theorem setAdd_of_not_mem {s : List String} {x : String} (h : x ∉ s) :
    setAdd s x = s ++ [x] := by
  unfold setAdd
  rw [if_neg]
  simp [h]

theorem mem_setAdd_of_mem {s : List String} {x y : String} (h : y ∈ s) :
    y ∈ setAdd s x := by
  unfold setAdd
  split
  · exact h
  · exact List.mem_append_left _ h

theorem inProgressTasks_map_id (t : PTask) (st : SchedSt) :
    (inProgressTasks t st).map (fun u => u.id) = st.tasks.map (fun u => u.id) :=
  updById_map_id (fun _ => rfl)

theorem stepOk_map_id (t : PTask) (result : Json) (st : SchedSt) :
    (stepOk t result st).tasks.map (fun u => u.id) = st.tasks.map (fun u => u.id) := by
  have h1 := @updById_map_id (inProgressTasks t st) t.id
    (fun u => { u with output_data := result, status := TaskStatus.completed, updated_at := st.clock + 1 })
    (fun _ => rfl)
  exact h1.trans (inProgressTasks_map_id t st)

theorem stepFail_map_id (t : PTask) (e : String) (st : SchedSt) :
    (stepFail t e st).tasks.map (fun u => u.id) = st.tasks.map (fun u => u.id) := by
  have h1 := @updById_map_id (inProgressTasks t st) t.id
    (fun u => { u with status := TaskStatus.failed, error_message := some e, updated_at := st.clock + 1 })
    (fun _ => rfl)
  exact h1.trans (inProgressTasks_map_id t st)

/-- A task with an id different from the dispatched one passes through
`inProgressTasks` unchanged. -/
theorem mem_inProgressTasks_of_ne {st : SchedSt} {t v : PTask}
    (hv : v ∈ st.tasks) (hne : v.id ≠ t.id) : v ∈ inProgressTasks t st :=
  mem_updById_iff.mpr ⟨v, hv, by rw [if_neg hne]⟩

/-- A task with an id different from the completed one passes through
`stepOk` unchanged. -/
theorem mem_stepOk_of_ne {st : SchedSt} {t v : PTask} (result : Json)
    (hv : v ∈ st.tasks) (hne : v.id ≠ t.id) : v ∈ (stepOk t result st).tasks :=
  mem_updById_iff.mpr ⟨v, mem_inProgressTasks_of_ne hv hne, by rw [if_neg hne]⟩

/-- A task with an id different from the failed one passes through
`stepFail` unchanged. -/
theorem mem_stepFail_of_ne {st : SchedSt} {t v : PTask} (e : String)
    (hv : v ∈ st.tasks) (hne : v.id ≠ t.id) : v ∈ (stepFail t e st).tasks :=
  mem_updById_iff.mpr ⟨v, mem_inProgressTasks_of_ne hv hne, by rw [if_neg hne]⟩

/-- After `stepOk`, the dispatched id resolves to a `completed` task. -/
theorem stepOk_completed_at {st : SchedSt} {t w : PTask} (result : Json)
    (hw : w ∈ st.tasks) (hid : w.id = t.id) :
    ∃ v ∈ (stepOk t result st).tasks, v.id = t.id ∧ v.status = TaskStatus.completed := by
  refine ⟨{ w with output_data := result, status := .completed, updated_at := st.clock + 1 }, ?_, hid, rfl⟩
  apply mem_updById_iff.mpr
  refine ⟨{ w with status := .in_progress, updated_at := st.clock }, ?_, ?_⟩
  · exact mem_updById_iff.mpr ⟨w, hw, by rw [if_pos hid]⟩
  · rw [if_pos (show ({ w with status := TaskStatus.in_progress, updated_at := st.clock } : PTask).id = t.id from hid)]

theorem execInv_stepOk {st : SchedSt} {t : PTask} (result : Json)
    (hinv : execInv st) (hTnot : t.id ∉ st.executed)
    (hex : ∃ w ∈ st.tasks, w.id = t.id) :
    execInv (stepOk t result st) := by
  obtain ⟨hids, hnd, hcomp⟩ := hinv
  refine ⟨?_, ?_, ?_⟩
  · show idsNodup (stepOk t result st).tasks
    unfold idsNodup
    rw [stepOk_map_id]
    exact hids
  · show (setAdd st.executed t.id).Nodup
    rw [setAdd_of_not_mem hTnot]
    exact List.nodup_append.mpr ⟨hnd, List.nodup_singleton _, by simp [hTnot]⟩
  · intro tid2 htid2
    have htid2b : tid2 ∈ st.executed ++ [t.id] := by
      rw [← setAdd_of_not_mem hTnot]
      exact htid2
    rcases List.mem_append.mp htid2b with hold | hnew
    · obtain ⟨v, hv, hvid, hvc⟩ := hcomp tid2 hold
      have hvne : v.id ≠ t.id := fun he => hTnot (by rw [← he, hvid]; exact hold)
      exact ⟨v, mem_stepOk_of_ne result hv hvne, hvid, hvc⟩
    · have he : tid2 = t.id := by simpa using hnew
      subst he
      obtain ⟨w, hw, hwid⟩ := hex
      exact stepOk_completed_at result hw hwid

theorem execInv_stepFail {st : SchedSt} {t : PTask} (e : String)
    (hinv : execInv st) (hTnot : t.id ∉ st.executed) :
    execInv (stepFail t e st) := by
  obtain ⟨hids, hnd, hcomp⟩ := hinv
  refine ⟨?_, hnd, ?_⟩
  · show idsNodup (stepFail t e st).tasks
    unfold idsNodup
    rw [stepFail_map_id]
    exact hids
  · intro tid2 htid2
    obtain ⟨v, hv, hvid, hvc⟩ := hcomp tid2 htid2
    have hvne : v.id ≠ t.id := fun he => hTnot (by rw [← he, hvid]; exact htid2)
    exact ⟨v, mem_stepFail_of_ne e hv hvne, hvid, hvc⟩

theorem goodSnap_dispatch {st : SchedSt} {t : PTask}
    (hinv : execInv st)
    (hpend : ∀ w ∈ st.tasks, w.id = t.id →
      w.status = TaskStatus.pending ∧ ∀ d ∈ w.dependencies, d ∈ st.executed)
    (hTnot : t.id ∉ st.executed) :
    goodSnap t.id (inProgressTasks t st) := by
  intro u hu huid d hd
  obtain ⟨w, hw, hue⟩ := mem_updById_iff.mp hu
  by_cases hwid : w.id = t.id
  · rw [if_pos hwid] at hue
    subst hue
    have hdeps := (hpend w hw hwid).2 d hd
    obtain ⟨v, hv, hvid, hvc⟩ := hinv.2.2 d hdeps
    have hvne : v.id ≠ t.id := fun he => hTnot (by rw [← he, hvid]; exact hdeps)
    exact ⟨v, mem_inProgressTasks_of_ne hv hvne, hvid, hvc⟩
  · rw [if_neg hwid] at hue
    subst hue
    exact absurd huid hwid

theorem readyTasks_facts {st : SchedSt} (hids : idsNodup st.tasks) :
    batchOK st (readyTasks st.tasks st.executed)
    ∧ ((readyTasks st.tasks st.executed).map (fun u => u.id)).Nodup
    ∧ (∀ t ∈ readyTasks st.tasks st.executed, ∃ w ∈ st.tasks, w.id = t.id) := by
  refine ⟨?_, ?_, ?_⟩
  · intro t ht w hw hwid
    obtain ⟨htmem, hcond⟩ := List.mem_filter.mp ht
    have heq : w = t := eq_of_same_id hids hw htmem hwid
    subst heq
    simp only [Bool.and_eq_true, decide_eq_true_eq, List.all_eq_true] at hcond
    obtain ⟨hst, hall⟩ := hcond
    refine ⟨hst, fun d hd => ?_⟩
    simpa using hall d hd
  · have hsub : (readyTasks st.tasks st.executed).Sublist st.tasks :=
      List.filter_sublist _
    have hsub2 := hsub.map (fun u : PTask => u.id)
    exact List.Nodup.sublist hsub2 hids
  · intro t ht
    exact ⟨t, (List.mem_filter.mp ht).1, rfl⟩

theorem processBatch_facts (exec : ExecOracle) :
    ∀ (batch : List PTask) (st : SchedSt) (trace : Trace),
      execInv st → batchOK st batch →
      ((batch.map (fun u => u.id)).Nodup) →
      (∀ t ∈ batch, ∃ w ∈ st.tasks, w.id = t.id) →
      execInv (processBatch exec batch st trace).2.1
      ∧ (∀ x ∈ st.executed, x ∈ (processBatch exec batch st trace).2.1.executed)
      ∧ (processBatch exec batch st trace).2.1.tasks.map (fun u => u.id)
          = st.tasks.map (fun u => u.id)
      ∧ ((processBatch exec batch st trace).1 = .ok () →
          (processBatch exec batch st trace).2.1.executed.length
            = st.executed.length + batch.length)
      ∧ ((∀ p ∈ trace, goodSnap p.1 p.2) →
          ∀ p ∈ (processBatch exec batch st trace).2.2, goodSnap p.1 p.2)
      ∧ (∀ err, (processBatch exec batch st trace).1 = .error err →
          ∃ t ∈ batch, ∃ e, runAgent exec t = .error e ∧ err = .taskFailed t.id e)
      ∧ ((processBatch exec batch st trace).1 = .ok () →
          ∀ t ∈ batch, ∃ j, runAgent exec t = .ok j)
      ∧ ((∀ u ∈ st.tasks, u.status ≠ TaskStatus.failed) →
          (processBatch exec batch st trace).1 = .ok () →
          ∀ u ∈ (processBatch exec batch st trace).2.1.tasks,
            u.status ≠ TaskStatus.failed) := by
  intro batch
  induction batch with
  | nil =>
    intro st trace hinv _ _ _
    refine ⟨hinv, fun x hx => hx, rfl, fun _ => rfl, fun hg => hg, ?_, ?_, ?_⟩
    · intro err herr
      exact Except.noConfusion herr
    · intro _ t ht
      cases ht
    · intro hnf _ u hu
      exact hnf u hu
  | cons t rest ih =>
    intro st trace hinv hbOK hnd hex
    have hpend : ∀ w ∈ st.tasks, w.id = t.id →
        w.status = TaskStatus.pending ∧ ∀ d ∈ w.dependencies, d ∈ st.executed :=
      fun w hw hwid => hbOK t (List.mem_cons_self _ _) w hw hwid
    have hTnot : t.id ∉ st.executed := by
      intro hmem2
      obtain ⟨v, hv, hvid, hvc⟩ := hinv.2.2 t.id hmem2
      have hp := (hpend v hv hvid).1
      rw [hp] at hvc
      cases hvc
    have hexhd : ∃ w ∈ st.tasks, w.id = t.id := hex t (List.mem_cons_self _ _)
    have hgoodEntry : goodSnap t.id (inProgressTasks t st) :=
      goodSnap_dispatch hinv hpend hTnot
    have hndrest : (rest.map (fun u => u.id)).Nodup := (List.nodup_cons.mp hnd).2
    have htidrest : t.id ∉ rest.map (fun u => u.id) := (List.nodup_cons.mp hnd).1
    cases hrun : runAgent exec t with
    | ok result =>
      have hinv2 : execInv (stepOk t result st) :=
        execInv_stepOk result hinv hTnot hexhd
      have hids2 : (stepOk t result st).tasks.map (fun u => u.id)
          = st.tasks.map (fun u => u.id) := stepOk_map_id t result st
      have hexec2 : (stepOk t result st).executed = st.executed ++ [t.id] := by
        show setAdd st.executed t.id = _
        exact setAdd_of_not_mem hTnot
      have hbOK2 : batchOK (stepOk t result st) rest := by
        intro t2 ht2 w hw hwid
        have ht2ne : t2.id ≠ t.id := by
          intro he
          exact htidrest (by rw [← he]; exact List.mem_map_of_mem _ ht2)
        obtain ⟨w1, hw1, he1⟩ := mem_updById_iff.mp hw
        obtain ⟨w0, hw0, he0⟩ := mem_updById_iff.mp hw1
        have hid1 : w.id = w1.id := by
          by_cases hb : w1.id = t.id
          · rw [if_pos hb] at he1; rw [he1]
          · rw [if_neg hb] at he1; rw [he1]
        have hid0 : w1.id = w0.id := by
          by_cases hb : w0.id = t.id
          · rw [if_pos hb] at he0; rw [he0]
          · rw [if_neg hb] at he0; rw [he0]
        have hw0ne : w0.id ≠ t.id := by
          rw [← hid0, ← hid1, hwid]
          exact ht2ne
        rw [if_neg hw0ne] at he0
        have hw1ne : w1.id ≠ t.id := by
          rw [hid0]
          exact hw0ne
        rw [if_neg hw1ne] at he1
        have hww0 : w = w0 := he1.trans he0
        have hw0id : w0.id = t2.id := by rw [← hid0, ← hid1, hwid]
        obtain ⟨hp, hd⟩ := hbOK t2 (List.mem_cons_of_mem _ ht2) w0 hw0 hw0id
        subst hww0
        refine ⟨hp, fun d hdmem => ?_⟩
        show d ∈ (stepOk t result st).executed
        rw [hexec2]
        exact List.mem_append_left _ (hd d hdmem)
      have hex2 : ∀ t2 ∈ rest, ∃ w ∈ (stepOk t result st).tasks, w.id = t2.id := by
        intro t2 ht2
        obtain ⟨w, hw, hwid⟩ := hex t2 (List.mem_cons_of_mem _ ht2)
        have hmm : w.id ∈ (stepOk t result st).tasks.map (fun u => u.id) := by
          rw [hids2]
          exact List.mem_map_of_mem _ hw
        obtain ⟨w2, hw2, hw2id⟩ := List.mem_map.mp hmm
        exact ⟨w2, hw2, by rw [hw2id, hwid]⟩
      obtain ⟨i1, i2, i3, i4, i5, i6, i7, i8⟩ :=
        ih (stepOk t result st) (trace ++ [(t.id, inProgressTasks t st)])
          hinv2 hbOK2 hndrest hex2
      have hred : processBatch exec (t :: rest) st trace
          = processBatch exec rest (stepOk t result st)
              (trace ++ [(t.id, inProgressTasks t st)]) := by
        simp only [processBatch, hrun]
      rw [hred]
      refine ⟨i1, ?_, ?_, ?_, ?_, ?_, ?_, ?_⟩
      · intro x hx
        apply i2
        rw [hexec2]
        exact List.mem_append_left _ hx
      · rw [i3, hids2]
      · intro hok
        rw [i4 hok, hexec2]
        simp [List.length_append]
        omega
      · intro hg
        apply i5
        intro p hp
        rcases List.mem_append.mp hp with hin | hnew2
        · exact hg p hin
        · have hpe : p = (t.id, inProgressTasks t st) := by simpa using hnew2
          rw [hpe]
          exact hgoodEntry
      · intro err herr
        obtain ⟨t2, ht2, e2, hrun2, herr2⟩ := i6 err herr
        exact ⟨t2, List.mem_cons_of_mem _ ht2, e2, hrun2, herr2⟩
      · intro hok t2 ht2
        rcases List.mem_cons.mp ht2 with he | hin
        · subst he
          exact ⟨result, hrun⟩
        · exact i7 hok t2 hin
      · intro hnf hok u hu
        apply i8 ?_ hok u hu
        intro u2 hu2
        obtain ⟨w1, hw1, he1⟩ := mem_updById_iff.mp hu2
        by_cases hb1 : w1.id = t.id
        · rw [if_pos hb1] at he1
          subst he1
          intro hc
          cases hc
        · rw [if_neg hb1] at he1
          subst he1
          obtain ⟨w0, hw0, he0⟩ := mem_updById_iff.mp hw1
          by_cases hb0 : w0.id = t.id
          · rw [if_pos hb0] at he0
            subst he0
            intro hc
            cases hc
          · rw [if_neg hb0] at he0
            subst he0
            exact hnf _ hw0
    | error e =>
      have hred : processBatch exec (t :: rest) st trace
          = (.error (.taskFailed t.id e), stepFail t e st,
             trace ++ [(t.id, inProgressTasks t st)]) := by
        simp only [processBatch, hrun, attempt_recovery]
      rw [hred]
      refine ⟨execInv_stepFail e hinv hTnot, ?_, ?_, ?_, ?_, ?_, ?_, ?_⟩
      · intro x hx
        exact hx
      · exact stepFail_map_id t e st
      · intro hok
        exact Except.noConfusion hok
      · intro hg p hp
        rcases List.mem_append.mp hp with hin | hnew2
        · exact hg p hin
        · have hpe : p = (t.id, inProgressTasks t st) := by simpa using hnew2
          rw [hpe]
          exact hgoodEntry
      · intro err herr
        injection herr with h2
        exact ⟨t, List.mem_cons_self _ _, e, hrun, h2.symm⟩
      · intro hok
        exact Except.noConfusion hok
      · intro _ hok
        exact Except.noConfusion hok

theorem execLoopAux_facts (exec : ExecOracle) (n : Nat) :
    ∀ (fuel : Nat) (st : SchedSt) (trace : Trace),
      execInv st →
      (∀ p ∈ trace, goodSnap p.1 p.2) →
      (∀ p ∈ (execLoopAux exec n fuel st trace).2.2, goodSnap p.1 p.2)
      ∧ (st.executed.length + fuel > n →
          (execLoopAux exec n fuel st trace).1 ≠ none)
      ∧ ((∀ u ∈ st.tasks, u.status ≠ TaskStatus.failed) →
          (execLoopAux exec n fuel st trace).1 = some (.ok ()) →
          ∀ u ∈ (execLoopAux exec n fuel st trace).2.1.tasks,
            u.status ≠ TaskStatus.failed) := by
  intro fuel
  induction fuel with
  | zero =>
    intro st trace hinv hg
    by_cases hc : st.executed.length < n
    · have hred : execLoopAux exec n 0 st trace = (none, st, trace) := by
        rw [execLoopAux, if_pos hc]
      rw [hred]
      refine ⟨hg, ?_, ?_⟩
      · intro hgt
        exfalso
        omega
      · intro _ hok
        exact Option.noConfusion hok
    · have hred : execLoopAux exec n 0 st trace = (some (.ok ()), st, trace) := by
        rw [execLoopAux, if_neg hc]
      rw [hred]
      exact ⟨hg, fun _ => by simp, fun hnf _ u hu => hnf u hu⟩
  | succ f ihf =>
    intro st trace hinv hg
    by_cases hc : st.executed.length < n
    case neg =>
      have hred : execLoopAux exec n (f + 1) st trace = (some (.ok ()), st, trace) := by
        rw [execLoopAux, if_neg hc]
      rw [hred]
      exact ⟨hg, fun _ => by simp, fun hnf _ u hu => hnf u hu⟩
    case pos =>
      obtain ⟨hbOK, hnd, hexmem⟩ := readyTasks_facts hinv.1
      cases hready : readyTasks st.tasks st.executed with
      | nil =>
        by_cases hp : (st.tasks.filter
            (fun t => t.status = TaskStatus.pending)).isEmpty = true
        · have hred : execLoopAux exec n (f + 1) st trace
              = (some (.ok ()), st, trace) := by
            rw [execLoopAux, if_pos hc]
            simp only [hready]
            rw [if_pos hp]
          rw [hred]
          exact ⟨hg, fun _ => by simp, fun hnf _ u hu => hnf u hu⟩
        · have hred : execLoopAux exec n (f + 1) st trace
              = (some (.error (.stuck ((st.tasks.filter
                  (fun t => t.status = TaskStatus.pending)).map (fun t => t.id)))),
                 st, trace) := by
            rw [execLoopAux, if_pos hc]
            simp only [hready]
            rw [if_neg hp]
          rw [hred]
          refine ⟨hg, fun _ => by simp, ?_⟩
          intro _ hok
          injection hok with h2
      | cons b bs =>
        have hfacts := processBatch_facts exec (b :: bs) st trace hinv
          (hready ▸ hbOK) (hready ▸ hnd) (hready ▸ hexmem)
        obtain ⟨pb, hpb⟩ : ∃ pb, processBatch exec (b :: bs) st trace = pb := ⟨_, rfl⟩
        rcases pb with ⟨res, st2, trace2⟩
        rw [hpb] at hfacts
        obtain ⟨p1, p2, p3, p4, p5, p6, p7, p8⟩ := hfacts
        cases res with
        | ok u =>
          cases u
          have hred : execLoopAux exec n (f + 1) st trace
              = execLoopAux exec n f st2 trace2 := by
            rw [execLoopAux, if_pos hc]
            simp only [hready, hpb]
          rw [hred]
          have hinv2 : execInv st2 := p1
          have hg2 : ∀ p ∈ trace2, goodSnap p.1 p.2 := p5 hg
          obtain ⟨q1, q2, q3⟩ := ihf st2 trace2 hinv2 hg2
          refine ⟨q1, ?_, ?_⟩
          · intro hgt
            apply q2
            have hlen : st2.executed.length
                = st.executed.length + (b :: bs).length := p4 rfl
            simp only [List.length_cons] at hlen
            omega
          · intro hnf hok
            exact q3 (p8 hnf rfl) hok
        | error e =>
          have hred : execLoopAux exec n (f + 1) st trace
              = (some (.error e), st2, trace2) := by
            rw [execLoopAux, if_pos hc]
            simp only [hready, hpb]
          rw [hred]
          refine ⟨p5 hg, fun _ => by simp, ?_⟩
          intro _ hok
          injection hok with h2
          exact Except.noConfusion h2

theorem processBatch_ok_all (exec : ExecOracle) :
    ∀ (batch : List PTask) (st : SchedSt) (trace : Trace),
      (processBatch exec batch st trace).1 = .ok () →
      ∀ t ∈ batch, ∃ j, runAgent exec t = .ok j := by
  intro batch
  induction batch with
  | nil =>
    intro st trace _ t ht
    cases ht
  | cons t rest ih =>
    intro st trace hok t2 ht2
    cases hrun : runAgent exec t with
    | ok result =>
      have hred : processBatch exec (t :: rest) st trace
          = processBatch exec rest (stepOk t result st)
              (trace ++ [(t.id, inProgressTasks t st)]) := by
        simp only [processBatch, hrun]
      rw [hred] at hok
      rcases List.mem_cons.mp ht2 with he | hin
      · subst he
        exact ⟨result, hrun⟩
      · exact ih _ _ hok t2 hin
    | error e =>
      have hred : (processBatch exec (t :: rest) st trace).1
          = .error (.taskFailed t.id e) := by
        simp only [processBatch, hrun, attempt_recovery]
      rw [hred] at hok
      exact Except.noConfusion hok

theorem processBatch_error_shape (exec : ExecOracle) :
    ∀ (batch : List PTask) (st : SchedSt) (trace : Trace) (err : ExecError),
      (processBatch exec batch st trace).1 = .error err →
      ∃ t ∈ batch, ∃ e, runAgent exec t = .error e ∧ err = .taskFailed t.id e := by
  intro batch
  induction batch with
  | nil =>
    intro st trace err herr
    exact Except.noConfusion herr
  | cons t rest ih =>
    intro st trace err herr
    cases hrun : runAgent exec t with
    | ok result =>
      have hred : processBatch exec (t :: rest) st trace
          = processBatch exec rest (stepOk t result st)
              (trace ++ [(t.id, inProgressTasks t st)]) := by
        simp only [processBatch, hrun]
      rw [hred] at herr
      obtain ⟨t2, ht2, e2, hrun2, he2⟩ := ih _ _ err herr
      exact ⟨t2, List.mem_cons_of_mem _ ht2, e2, hrun2, he2⟩
    | error e =>
      have hred : (processBatch exec (t :: rest) st trace).1
          = .error (.taskFailed t.id e) := by
        simp only [processBatch, hrun, attempt_recovery]
      rw [hred] at herr
      injection herr with h2
      exact ⟨t, List.mem_cons_self _ _, e, hrun, h2.symm⟩

theorem taskDictInsert_nodup {ts : List PTask} {t : PTask} (h : idsNodup ts) :
    idsNodup (taskDictInsert ts t) := by
  unfold taskDictInsert idsNodup
  by_cases ha : ts.any (fun u => u.id = t.id) = true
  · rw [if_pos ha]
    have hmap : (ts.map (fun u => if u.id = t.id then t else u)).map (fun u => u.id)
        = ts.map (fun u => u.id) := by
      rw [List.map_map]
      congr 1
      funext u
      by_cases hu : u.id = t.id
      · simp [hu]
      · simp [hu]
    rw [hmap]
    exact h
  · rw [if_neg ha]
    rw [List.map_append]
    apply List.nodup_append.mpr
    refine ⟨h, List.nodup_singleton _, ?_⟩
    intro x hx
    simp only [List.mem_map] at hx
    obtain ⟨u, hu, hid⟩ := hx
    simp only [List.any_eq_true, decide_eq_true_eq] at ha
    intro hx2
    have hxe : x = t.id := by simpa using hx2
    exact ha ⟨u, hu, by rw [hid, hxe]⟩

theorem buildTasks_nodup :
    ∀ (subs : List Json) (ts : List PTask) (clock : Nat),
      idsNodup ts → idsNodup (buildTasks subs ts clock).2.1 := by
  intro subs
  induction subs with
  | nil =>
    intro ts clock h
    exact h
  | cons sub rest ih =>
    intro ts clock h
    cases hs : taskOfSubtask clock sub with
    | error e =>
      have hred : buildTasks (sub :: rest) ts clock = (.error e, ts, clock) := by
        simp only [buildTasks, hs]
      rw [hred]
      exact h
    | ok t =>
      have hred : buildTasks (sub :: rest) ts clock
          = buildTasks rest (taskDictInsert ts t) (clock + 1) := by
        simp only [buildTasks, hs]
      rw [hred]
      exact ih _ _ (taskDictInsert_nodup h)

theorem call_planner_nodup (ollama : Except String String) (sid : String)
    (clock : Nat) : idsNodup (call_planner ollama sid clock).2.1 := by
  rcases ollama with e | resp
  · exact List.nodup_nil
  · rcases hx : extract_json resp with e | plan0
    · have hred : call_planner (.ok resp) sid clock
          = (.error ("Planner failed to create valid plan: " ++ e), [], clock) := by
        simp only [call_planner, hx]
      rw [hred]
      exact List.nodup_nil
    · cases hsub : jsonGetD (setJsonField plan0 "session_id" (.jstr sid))
          "subtasks" (.jarr []) with
      | jarr subs =>
        cases hb : buildTasks subs [] clock with
        | mk r rest =>
          rcases rest with ⟨ts2, ck2⟩
          cases r with
          | ok u =>
            have hred : (call_planner (.ok resp) sid clock).2.1 = ts2 := by
              simp only [call_planner, hx, hsub, hb]
            rw [hred]
            have := buildTasks_nodup subs [] clock List.nodup_nil
            rw [hb] at this
            exact this
          | error e =>
            have hred : (call_planner (.ok resp) sid clock).2.1 = ts2 := by
              simp only [call_planner, hx, hsub, hb]
            rw [hred]
            have := buildTasks_nodup subs [] clock List.nodup_nil
            rw [hb] at this
            exact this
      | null => simp only [call_planner, hx, hsub]; exact List.nodup_nil
      | jbool b => simp only [call_planner, hx, hsub]; exact List.nodup_nil
      | jnum m => simp only [call_planner, hx, hsub]; exact List.nodup_nil
      | jstr s => simp only [call_planner, hx, hsub]; exact List.nodup_nil
      | jobj fields => simp only [call_planner, hx, hsub]; exact List.nodup_nil

/-! ## Claim C1 — dependencies complete before dispatch -/

/-- C1: starting from a freshly built graph (every task `pending`, ids
distinct as `dict` keys), whenever the scheduler loop sets a task's
status to `in_progress`, every dependency id of that task resolves — in
the task list at that very instant — to a task with status `completed`;
a task is never dispatched while any dependency is not completed.  The
trace records each dispatch with the task list at the moment
`task.status = TaskStatus.IN_PROGRESS` executes. -/
theorem c1_deps_completed_before_dispatch :
    ∀ (exec : ExecOracle) (n fuel clock : Nat) (ts0 : List PTask),
      (∀ t ∈ ts0, t.status = TaskStatus.pending) →
      idsNodup ts0 →
      ∀ p ∈ (execLoopAux exec n fuel ⟨ts0, [], [], clock⟩ []).2.2,
        goodSnap p.1 p.2 := by
  intro exec n fuel clock ts0 _ hnd
  have hinv : execInv ⟨ts0, [], [], clock⟩ :=
    ⟨hnd, List.nodup_nil, fun tid h => absurd h (List.not_mem_nil _)⟩
  exact (execLoopAux_facts exec n fuel _ []
    hinv (fun p hp => absurd hp (List.not_mem_nil _))).1

/-- C1 (witness): a 2-task chain (`A` depends on `B`) executed to
completion; the second trace entry — the dispatch of `A` — satisfies the
dispatch condition. -/
theorem c1_deps_completed_witness :
    goodSnap ((execLoopAux okExec 2 3
        ⟨[mkT "B" [], mkT "A" ["B"]], [], [], 0⟩ []).2.2.getD 1 ("", [])).1
      ((execLoopAux okExec 2 3
        ⟨[mkT "B" [], mkT "A" ["B"]], [], [], 0⟩ []).2.2.getD 1 ("", [])).2 :=
  c1_deps_completed_before_dispatch okExec 2 3 0 [mkT "B" [], mkT "A" ["B"]]
    (by decide) (by unfold idsNodup; decide) _
    (List.mem_cons_of_mem _ (List.mem_cons_self _ _))

/-- C2 (witness): the 2-cycle theorem applied to concrete tasks `A` and
`B`. -/
theorem c2_two_cycle_stuck_witness :
    (execLoopAux okExec 2 1 ⟨[mkT "A" ["B"], mkT "B" ["A"]], [], [], 0⟩ []).1
      = some (.error (.stuck ["A", "B"])) :=
  c2_two_cycle_stuck okExec 0 0 (mkT "A" ["B"]) (mkT "B" ["A"]) rfl rfl rfl rfl

/-! ## Claim C3 — no recovery, single failure is fatal -/

/-- C3: the baseline recovery hook returns `None` for every task and
error; consequently, when any task's execution raises, the batch
processing raises `Task <id> failed: <e>` surfacing a failing task's id
and error message, and a run of the scheduler loop that reports success
leaves no task in status `failed` — no partial-success session result
exists. -/
theorem c3_recovery_none_failure_fatal :
    (∀ (t : PTask) (e : String), attempt_recovery t e = none)
    ∧ (∀ (exec : ExecOracle) (batch : List PTask) (st : SchedSt) (trace : Trace)
         (t : PTask) (e : String),
        t ∈ batch → runAgent exec t = .error e →
        ∃ t2 e2, t2 ∈ batch ∧ runAgent exec t2 = .error e2 ∧
          (processBatch exec batch st trace).1 = .error (.taskFailed t2.id e2))
    ∧ (∀ (exec : ExecOracle) (n fuel clock : Nat) (ts0 : List PTask),
        idsNodup ts0 → (∀ t ∈ ts0, t.status ≠ TaskStatus.failed) →
        (execLoopAux exec n fuel ⟨ts0, [], [], clock⟩ []).1 = some (.ok ()) →
        ∀ u ∈ (execLoopAux exec n fuel ⟨ts0, [], [], clock⟩ []).2.1.tasks,
          u.status ≠ TaskStatus.failed) := by
  refine ⟨fun _ _ => rfl, ?_, ?_⟩
  · intro exec batch st trace t e ht hrun
    cases hres : (processBatch exec batch st trace).1 with
    | ok u =>
      cases u
      obtain ⟨j, hj⟩ := processBatch_ok_all exec batch st trace hres t ht
      rw [hrun] at hj
      exact Except.noConfusion hj
    | error err =>
      obtain ⟨t2, ht2, e2, hrun2, he2⟩ :=
        processBatch_error_shape exec batch st trace err hres
      exact ⟨t2, e2, ht2, hrun2, by rw [he2]⟩

  · intro exec n fuel clock ts0 hnd hnf hok
    have hinv : execInv ⟨ts0, [], [], clock⟩ :=
      ⟨hnd, List.nodup_nil, fun tid h => absurd h (List.not_mem_nil _)⟩
    exact (execLoopAux_facts exec n fuel _ []
      hinv (fun p hp => absurd hp (List.not_mem_nil _))).2.2 hnf hok

/-- C3 (witness): the failure-propagation conjunct applied to a
single-task batch whose execution raises `boom`. -/
theorem c3_recovery_none_witness :
    ∃ t2 e2, t2 ∈ [mkT "X" []]
      ∧ runAgent (fun _ => .error "boom") t2 = .error e2
      ∧ (processBatch (fun _ => .error "boom") [mkT "X" []]
          ⟨[mkT "X" []], [], [], 0⟩ []).1 = .error (.taskFailed t2.id e2) :=
  c3_recovery_none_failure_fatal.2.1 (fun _ => .error "boom") [mkT "X" []]
    ⟨[mkT "X" []], [], [], 0⟩ [] (mkT "X" []) "boom"
    (List.mem_cons_self _ _) rfl

/-! ## Claim C10 — `process_goal` never raises -/

/-- C10: the top-level goal-processing entry point is total — it returns
a result dict for every input, never propagating an exception: the
returned dict always carries the session id; a planner failure returns
the `failed` dict with the raised message and the tasks created so far;
a scheduling failure (stuck graph or unrecovered task failure) returns
the `failed` dict with the error message and the full task list in its
current states; and the loop-fuel bound `n + 1` used by the model is
never exhausted (the source's unbounded `while` terminates), so no
other outcome exists. -/
theorem c10_process_goal_never_raises :
    ∀ (sid : String) (ollama : Except String String) (exec : ExecOracle),
      (process_goal sid ollama exec).sessionId = sid
      ∧ (∀ e ts ck, call_planner ollama sid 0 = (.error e, ts, ck) →
          process_goal sid ollama exec = .failed sid e ts)
      ∧ (∀ plan ts ck, call_planner ollama sid 0 = (.ok plan, ts, ck) →
          ∀ err st2 tr2,
            execute_plan exec plan ⟨ts, [], [], ck⟩ = (some (.error err), st2, tr2) →
            process_goal sid ollama exec = .failed sid err.msg st2.tasks)
      ∧ (∀ plan ts ck, call_planner ollama sid 0 = (.ok plan, ts, ck) →
          (execute_plan exec plan ⟨ts, [], [], ck⟩).1 ≠ none) := by
  intro sid ollama exec
  refine ⟨?_, ?_, ?_, ?_⟩
  · rcases hcp : call_planner ollama sid 0 with ⟨res, ts, ck⟩
    cases res with
    | error e =>
      simp only [process_goal, hcp]
      rfl
    | ok plan =>
      rcases hep : execute_plan exec plan ⟨ts, [], [], ck⟩ with ⟨r, st2, tr2⟩
      cases r with
      | none =>
        simp only [process_goal, hcp, hep]
        rfl
      | some x =>
        cases x with
        | ok u =>
          cases u
          simp only [process_goal, hcp, hep]
          rfl
        | error err =>
          simp only [process_goal, hcp, hep]
          rfl
  · intro e ts ck hcp
    simp only [process_goal, hcp]
  · intro plan ts ck hcp err st2 tr2 hep
    simp only [process_goal, hcp, hep]
  · intro plan ts ck hcp
    have hnd : idsNodup ts := by
      have h0 := call_planner_nodup ollama sid 0
      rw [hcp] at h0
      exact h0
    have hinv : execInv ⟨ts, [], [], ck⟩ :=
      ⟨hnd, List.nodup_nil, fun tid h => absurd h (List.not_mem_nil _)⟩
    have hsuff := (execLoopAux_facts exec
      (match jsonGetD plan "subtasks" (.jarr []) with
        | .jarr subs => subs.length
        | _ => 0)
      ((match jsonGetD plan "subtasks" (.jarr []) with
        | .jarr subs => subs.length
        | _ => 0) + 1)
      ⟨ts, [], [], ck⟩ []
      hinv (fun p hp => absurd hp (List.not_mem_nil _))).2.1 (by omega)
    exact hsuff

/-- C10 (witness): the planner-failure conjunct applied to a concrete
unparseable planner response, and the plan-success conjuncts applied to
the forward-reference plan. -/
theorem c10_process_goal_witness :
    process_goal "s9" (.ok "no json at all") okExec
      = .failed "s9"
          ("Planner failed to create valid plan: " ++ extractFailMsg "no json at all") []
    ∧ (execute_plan okExec
        ((call_planner (.ok planForwardRefText) "s2" 0).1.toOption.getD Json.null)
        ⟨(call_planner (.ok planForwardRefText) "s2" 0).2.1, [], [],
          (call_planner (.ok planForwardRefText) "s2" 0).2.2⟩).1 ≠ none := by
  constructor
  · exact (c10_process_goal_never_raises "s9" (.ok "no json at all") okExec).2.1
      ("Planner failed to create valid plan: " ++ extractFailMsg "no json at all")
      [] 0 (by rfl)
  · exact (c10_process_goal_never_raises "s2" (.ok planForwardRefText) okExec).2.2.2
      (((call_planner (.ok planForwardRefText) "s2" 0).1.toOption.getD Json.null))
      ((call_planner (.ok planForwardRefText) "s2" 0).2.1)
      ((call_planner (.ok planForwardRefText) "s2" 0).2.2) (by rfl)
